import Mathlib

/-!
Shallow embedding of the pstokenizer Go package (src/token.go) for the
slice-backed mode (`src == nil`: the tokenizer built by `NewTokenizer`).
Bytes are modelled as `Nat` (values 0..255), the buffer as `List Nat`,
the cursor `pos` as a `Nat`.  Go's fallible `read` is modelled by
returning the byte together with the `ok` flag and the new position;
a failed read yields byte 0 and leaves the position unchanged, exactly
as `Tokenizer.read` does.  A Go run-time panic (slice bounds out of
range in `readCharString`) is modelled by returning `none`.
-/

/-- Kind of token.  The Go `const` block starts with a blank identifier
(`_ Kind = iota`), so the zero value of `Kind` is an unnamed invalid
kind and `EOF` is 1; `invalid` models that zero value. -/
inductive Kind where
  | invalid
  | eof
  | float
  | integer
  | string
  | stringHex
  | name
  | startArray
  | endArray
  | startDic
  | endDic
  | other
  | startProc
  | endProc
  | charString
deriving DecidableEq, Repr

/-- Token: a kind together with the copied value bytes. -/
structure Token where
  kind : Kind
  value : List Nat
deriving DecidableEq, Repr

/-- The Go zero value of `Token`: invalid kind, nil value. -/
def zeroToken : Token := ⟨Kind.invalid, []⟩

/-- Error kinds of the tokenizer; each corresponds to one `errors.New` or
`fmt.Errorf` site in token.go.  The exact message strings are irrelevant
to the observable behaviour modelled here. -/
inductive Err where
  | corruptedName
  | dictCloseExpected
  | hexCharInvalid
  | stringUnterminated
  | charStringLeaderMissing
  | charStringLengthInvalid
deriving DecidableEq, Repr

/-- IsAsciiWhitespace from token.go. -/
def isWhite (c : Nat) : Bool :=
  decide (c = 0 ∨ c = 9 ∨ c = 10 ∨ c = 12 ∨ c = 13 ∨ c = 32)

/-- isEOL from token.go. -/
def isEOLb (c : Nat) : Bool := decide (c = 10 ∨ c = 13)

/-- isDelimiter from token.go: whitespace plus the PDF delimiters. -/
def isDelim (c : Nat) : Bool :=
  decide (c = 40 ∨ c = 41 ∨ c = 60 ∨ c = 62 ∨ c = 91 ∨ c = 93 ∨ c = 123 ∨
    c = 125 ∨ c = 47 ∨ c = 37) || isWhite c

/-- isDigit from token.go. -/
def isDigit (c : Nat) : Bool := decide (48 ≤ c ∧ c ≤ 57)

/-- IsHexChar from token.go: the value of a hex digit, or `none`. -/
def isHexChar (c : Nat) : Option Nat :=
  if 48 ≤ c ∧ c ≤ 57 then some (c - 48)
  else if 97 ≤ c ∧ c ≤ 102 then some (c - 87)
  else if 65 ≤ c ∧ c ≤ 70 then some (c - 55)
  else none

/-- Tokenizer.read: byte at `pos` (0 on failure), the `ok` flag, and the
new position. -/
def readB (data : List Nat) (pos : Nat) : Nat × Bool × Nat :=
  if pos < data.length then (data.getD pos 0, true, pos + 1) else (0, false, pos)

/-- The whitespace-skipping loops (`for ok && IsAsciiWhitespace(ch)`):
given the already-read byte `c` with flag `ok`, keep reading while the
byte is whitespace; returns the first non-whitespace byte (or 0 with
`false` at end of input) and the position after it was read. -/
def skipWsCh (data : List Nat) (c : Nat) (ok : Bool) (pos : Nat) : Nat × Bool × Nat :=
  if ok ∧ isWhite c then
    if h : pos < data.length then skipWsCh data (data.getD pos 0) true (pos + 1)
    else (0, false, pos)
  else (c, ok, pos)
termination_by data.length - pos

theorem skipWsCh_mono (data : List Nat) (c : Nat) (ok : Bool) (pos : Nat) :
    pos ≤ (skipWsCh data c ok pos).2.2 := by
  induction c, ok, pos using skipWsCh.induct data with
  | case1 c ok pos hc h ih =>
    rw [skipWsCh, if_pos hc, dif_pos h]
    omega
  | case2 c ok pos hc h =>
    rw [skipWsCh, if_pos hc, dif_neg h]
  | case3 c ok pos hc =>
    rw [skipWsCh, if_neg hc]

theorem skipWsCh_le_len (data : List Nat) (c : Nat) (ok : Bool) (pos : Nat)
    (h : pos ≤ data.length) : (skipWsCh data c ok pos).2.2 ≤ data.length := by
  induction c, ok, pos using skipWsCh.induct data with
  | case1 c ok pos hc h1 ih =>
    rw [skipWsCh, if_pos hc, dif_pos h1]
    exact ih (by omega)
  | case2 c ok pos hc h1 =>
    rw [skipWsCh, if_pos hc, dif_neg h1]
    exact h
  | case3 c ok pos hc =>
    rw [skipWsCh, if_neg hc]
    exact h

/-- The comment loop of `nextToken` (case `%`): read bytes until an EOL
byte has been consumed or the input is exhausted; returns the position
after the loop. -/
def skipComment (data : List Nat) (pos : Nat) : Nat :=
  if h : pos < data.length then
    if isEOLb (data.getD pos 0) then pos + 1 else skipComment data (pos + 1)
  else pos
termination_by data.length - pos

theorem skipComment_mono (data : List Nat) (pos : Nat) :
    pos ≤ skipComment data pos := by
  induction pos using skipComment.induct data with
  | case1 pos h he =>
    rw [skipComment, dif_pos h, if_pos he]
    omega
  | case2 pos h he ih =>
    rw [skipComment, dif_pos h, if_neg he]
    omega
  | case3 pos h =>
    rw [skipComment, dif_neg h]

/-- The digit-accumulating loops of `readNumber`
(`for isDigit(c) { sb = append(sb, c); c, ok = read() }`), starting from
the already-read byte `c` with flag `ok`.  Returns the first non-digit
byte, the flag, the position, and the extended buffer. -/
def digitLoop (data : List Nat) (c : Nat) (ok : Bool) (pos : Nat) (sb : List Nat) :
    Nat × Bool × Nat × List Nat :=
  if isDigit c then
    if h : pos < data.length then
      digitLoop data (data.getD pos 0) true (pos + 1) (sb ++ [c])
    else (0, false, pos, sb ++ [c])
  else (c, ok, pos, sb)
termination_by data.length - pos

/-- The operator-word loop of `nextToken`'s default branch
(`for !isDelimiter(ch)`), with the pushback of the terminating delimiter
already accounted for: returns the accumulated word and the net position
(position of the delimiter, or end of input). -/
def wordLoop (data : List Nat) (pos : Nat) (buf : List Nat) : List Nat × Nat :=
  if h : pos < data.length then
    if isDelim (data.getD pos 0) then (buf, pos)
    else wordLoop data (pos + 1) (buf ++ [data.getD pos 0])
  else (buf, pos)
termination_by data.length - pos

/-- The name loop of `nextToken` (case `/`), with the pushback of the
terminating delimiter accounted for.  A `#` must be followed by two hex
bytes; the `#` and the two raw hex bytes are all appended. -/
def nameLoop (data : List Nat) (pos : Nat) (buf : List Nat) :
    Token × Option Err × Nat :=
  if h : pos < data.length then
    if isDelim (data.getD pos 0) then (⟨Kind.name, buf⟩, none, pos)
    else if data.getD pos 0 = 35 then
      if h1 : pos + 1 < data.length then
        if h2 : pos + 2 < data.length then
          if (isHexChar (data.getD (pos + 1) 0)).isSome ∧
              (isHexChar (data.getD (pos + 2) 0)).isSome then
            nameLoop data (pos + 3)
              (buf ++ [35, data.getD (pos + 1) 0, data.getD (pos + 2) 0])
          else (zeroToken, some Err.corruptedName, pos + 3)
        else (zeroToken, some Err.corruptedName, pos + 2)
      else (zeroToken, some Err.corruptedName, pos + 1)
    else nameLoop data (pos + 1) (buf ++ [data.getD pos 0])
  else (⟨Kind.name, buf⟩, none, pos)
termination_by data.length - pos

/-- The hex-string loop of `nextToken` (case `<`, not a dictionary):
`c`/`ok` is the byte read right after `<` (the first prospective nibble).
Whitespace between nibbles is skipped; two nibbles make one output byte,
high nibble first; an odd nibble before `>` is emitted as `value << 4`;
anything else fails with the invalid-hex-char error. -/
def hexLoop (data : List Nat) (c : Nat) (ok : Bool) (pos : Nat) (buf : List Nat) :
    Token × Option Err × Nat :=
  if (skipWsCh data c ok pos).1 = 62 then
    (⟨Kind.stringHex, buf⟩, none, (skipWsCh data c ok pos).2.2)
  else
    match isHexChar (skipWsCh data c ok pos).1 with
    | none => (zeroToken, some Err.hexCharInvalid, (skipWsCh data c ok pos).2.2)
    | some h1 =>
      if hr : (skipWsCh data c ok pos).2.2 < data.length then
        if (skipWsCh data (data.getD (skipWsCh data c ok pos).2.2 0) true
            ((skipWsCh data c ok pos).2.2 + 1)).1 = 62 then
          (⟨Kind.stringHex, buf ++ [h1 * 16]⟩, none,
            (skipWsCh data (data.getD (skipWsCh data c ok pos).2.2 0) true
              ((skipWsCh data c ok pos).2.2 + 1)).2.2)
        else
          match isHexChar (skipWsCh data (data.getD (skipWsCh data c ok pos).2.2 0) true
              ((skipWsCh data c ok pos).2.2 + 1)).1 with
          | none =>
            (zeroToken, some Err.hexCharInvalid,
              (skipWsCh data (data.getD (skipWsCh data c ok pos).2.2 0) true
                ((skipWsCh data c ok pos).2.2 + 1)).2.2)
          | some h2 =>
            if hr2 : (skipWsCh data (data.getD (skipWsCh data c ok pos).2.2 0) true
                ((skipWsCh data c ok pos).2.2 + 1)).2.2 < data.length then
              hexLoop data
                (data.getD (skipWsCh data (data.getD (skipWsCh data c ok pos).2.2 0) true
                  ((skipWsCh data c ok pos).2.2 + 1)).2.2 0)
                true
                ((skipWsCh data (data.getD (skipWsCh data c ok pos).2.2 0) true
                  ((skipWsCh data c ok pos).2.2 + 1)).2.2 + 1)
                (buf ++ [h1 * 16 + h2])
            else
              hexLoop data 0 false
                (skipWsCh data (data.getD (skipWsCh data c ok pos).2.2 0) true
                  ((skipWsCh data c ok pos).2.2 + 1)).2.2
                (buf ++ [h1 * 16 + h2])
      else (zeroToken, some Err.hexCharInvalid, (skipWsCh data c ok pos).2.2)
termination_by data.length + 1 - pos
decreasing_by
  all_goals
    have a1 := skipWsCh_mono data c ok pos
    have a2 := skipWsCh_mono data (data.getD (skipWsCh data c ok pos).2.2 0) true
      ((skipWsCh data c ok pos).2.2 + 1)
    have a3 := skipWsCh_le_len data (data.getD (skipWsCh data c ok pos).2.2 0) true
      ((skipWsCh data c ok pos).2.2 + 1) (by omega)
    omega

/-- The literal-string loop of `nextToken` (case `(`).  `nest` is the
parenthesis nesting depth; `buf` the accumulated value.  Faithful to the
Go loop, including: CR and CR LF normalized to one LF byte; escape
sequences after a backslash (named escapes, literal parens/backslash,
line continuations, one to three octal digits with the third masked to
8 bits, any other byte taken verbatim); the unconditional `pr.pos--`
after a failed read in the octal and CR lookaheads; and the
unexpected-EOF error whenever a read fails mid-string. -/
def stringLoop (data : List Nat) (nest : Int) (buf : List Nat) (pos : Nat) :
    Token × Option Err × Nat :=
  if h : pos < data.length then
    if data.getD pos 0 = 40 then
      if nest + 1 = -1 then (⟨Kind.string, buf⟩, none, pos + 1)
      else stringLoop data (nest + 1) (buf ++ [40]) (pos + 1)
    else if data.getD pos 0 = 41 then
      if nest - 1 = -1 then (⟨Kind.string, buf⟩, none, pos + 1)
      else stringLoop data (nest - 1) (buf ++ [41]) (pos + 1)
    else if data.getD pos 0 = 92 then
      if h2 : pos + 1 < data.length then
        if data.getD (pos + 1) 0 = 110 then
          if nest = -1 then (⟨Kind.string, buf⟩, none, pos + 2)
          else stringLoop data nest (buf ++ [10]) (pos + 2)
        else if data.getD (pos + 1) 0 = 114 then
          if nest = -1 then (⟨Kind.string, buf⟩, none, pos + 2)
          else stringLoop data nest (buf ++ [13]) (pos + 2)
        else if data.getD (pos + 1) 0 = 116 then
          if nest = -1 then (⟨Kind.string, buf⟩, none, pos + 2)
          else stringLoop data nest (buf ++ [9]) (pos + 2)
        else if data.getD (pos + 1) 0 = 98 then
          if nest = -1 then (⟨Kind.string, buf⟩, none, pos + 2)
          else stringLoop data nest (buf ++ [8]) (pos + 2)
        else if data.getD (pos + 1) 0 = 102 then
          if nest = -1 then (⟨Kind.string, buf⟩, none, pos + 2)
          else stringLoop data nest (buf ++ [12]) (pos + 2)
        else if data.getD (pos + 1) 0 = 40 ∨ data.getD (pos + 1) 0 = 41 ∨ data.getD (pos + 1) 0 = 92 then
          if nest = -1 then (⟨Kind.string, buf⟩, none, pos + 2)
          else stringLoop data nest (buf ++ [data.getD (pos + 1) 0]) (pos + 2)
        else if data.getD (pos + 1) 0 = 13 then
          if h3 : pos + 2 < data.length then
            if data.getD (pos + 2) 0 = 10 then stringLoop data nest buf (pos + 3)
            else stringLoop data nest buf (pos + 2)
          else stringLoop data nest buf (pos + 1)
        else if data.getD (pos + 1) 0 = 10 then stringLoop data nest buf (pos + 2)
        else if 48 ≤ data.getD (pos + 1) 0 ∧ data.getD (pos + 1) 0 ≤ 55 then
          if h3 : pos + 2 < data.length then
            if 48 ≤ data.getD (pos + 2) 0 ∧ data.getD (pos + 2) 0 ≤ 55 then
              if h4 : pos + 3 < data.length then
                if 48 ≤ data.getD (pos + 3) 0 ∧ data.getD (pos + 3) 0 ≤ 55 then
                  if nest = -1 then (⟨Kind.string, buf⟩, none, pos + 4)
                  else
                    stringLoop data nest
                      (buf ++ [((data.getD (pos + 1) 0 - 48) * 8 + (data.getD (pos + 2) 0 - 48)) * 8 +
                        (data.getD (pos + 3) 0 - 48) |>.mod 256])
                      (pos + 4)
                else
                  if nest = -1 then (⟨Kind.string, buf⟩, none, pos + 3)
                  else
                    stringLoop data nest
                      (buf ++ [(data.getD (pos + 1) 0 - 48) * 8 + (data.getD (pos + 2) 0 - 48)]) (pos + 3)
              else (zeroToken, some Err.stringUnterminated, pos + 2)
            else
              if nest = -1 then (⟨Kind.string, buf⟩, none, pos + 2)
              else stringLoop data nest (buf ++ [data.getD (pos + 1) 0 - 48]) (pos + 2)
          else (zeroToken, some Err.stringUnterminated, pos + 1)
        else
          if nest = -1 then (⟨Kind.string, buf⟩, none, pos + 2)
          else stringLoop data nest (buf ++ [data.getD (pos + 1) 0]) (pos + 2)
      else (zeroToken, some Err.stringUnterminated, pos + 1)
    else if data.getD pos 0 = 13 then
      if h2 : pos + 1 < data.length then
        if data.getD (pos + 1) 0 = 10 then
          if nest = -1 then (⟨Kind.string, buf⟩, none, pos + 2)
          else stringLoop data nest (buf ++ [10]) (pos + 2)
        else
          if nest = -1 then (⟨Kind.string, buf⟩, none, pos + 1)
          else stringLoop data nest (buf ++ [10]) (pos + 1)
      else (zeroToken, some Err.stringUnterminated, pos + 1)
    else
      if nest = -1 then (⟨Kind.string, buf⟩, none, pos + 1)
      else stringLoop data nest (buf ++ [data.getD pos 0]) (pos + 1)
  else (zeroToken, some Err.stringUnterminated, pos)
termination_by data.length + 1 - pos
decreasing_by all_goals omega

/-- Value of a list of ASCII decimal digits (most significant first). -/
def digitsVal (s : List Nat) : Nat :=
  s.foldl (fun a c => a * 10 + (c - 48)) 0

/-- Saturation of an exact integer to the int64 range, as Go's
strconv.ParseInt does on range errors (the caller ignores the error and
uses the saturated value). -/
def satInt64 (v : Int) : Int :=
  if v > 2 ^ 63 - 1 then 2 ^ 63 - 1 else if v < -(2 ^ 63) then -(2 ^ 63) else v

/-- All bytes of `s` are ASCII decimal digits and `s` is nonempty. -/
def decDigits (s : List Nat) : Bool := !s.isEmpty && s.all isDigit

/-- Go's strconv.Atoi (= ParseInt base 10, bitSize 0): 0 on a syntax
error, the (saturated) value otherwise. -/
def goAtoi (s : List Nat) : Int :=
  match s with
  | [] => 0
  | c :: t =>
    if c = 43 then (if decDigits t then satInt64 (digitsVal t) else 0)
    else if c = 45 then (if decDigits t then satInt64 (-(digitsVal t : Int)) else 0)
    else if decDigits s then satInt64 (digitsVal s) else 0

/-- Digit value used by strconv.ParseInt: 0-9, a-z, A-Z; 99 (an always
out-of-range value, all bases being at most 36) otherwise. -/
def baseDigVal (c : Nat) : Nat :=
  if 48 ≤ c ∧ c ≤ 57 then c - 48
  else if 97 ≤ c ∧ c ≤ 122 then c - 87
  else if 65 ≤ c ∧ c ≤ 90 then c - 55
  else 99

/-- Value of digit bytes in a given base. -/
def baseVal (b : Nat) (s : List Nat) : Nat :=
  s.foldl (fun a c => a * b + baseDigVal c) 0

/-- Sign-free part of strconv.ParseInt with base 0: base inferred from
the leading characters — a 0b or 0o or 0x prefix, a bare leading 0
meaning octal, decimal otherwise. -/
def goParseInt0Body (u : List Nat) : Int :=
  match u with
  | [] => 0
  | c :: t =>
    if c = 48 then
      match t with
      | [] => 0
      | d :: t2 =>
        if d = 98 ∨ d = 66 then
          (if !t2.isEmpty && t2.all (fun x => baseDigVal x < 2) then
            satInt64 (baseVal 2 t2) else 0)
        else if d = 111 ∨ d = 79 then
          (if !t2.isEmpty && t2.all (fun x => baseDigVal x < 8) then
            satInt64 (baseVal 8 t2) else 0)
        else if d = 120 ∨ d = 88 then
          (if !t2.isEmpty && t2.all (fun x => baseDigVal x < 16) then
            satInt64 (baseVal 16 t2) else 0)
        else if t.all (fun x => baseDigVal x < 8) then satInt64 (baseVal 8 t)
        else 0
    else if u.all (fun x => baseDigVal x < 10) then satInt64 (baseVal 10 u)
    else 0

/-- Go's strconv.ParseInt with bitSize 0: base 0 infers the base from
the prefix; an explicit base must lie in 2..36; the result is 0 on
base or syntax errors and saturated to int64 on range errors (the
caller in readNumber ignores the error and uses the value). -/
def goParseInt (s : List Nat) (base : Int) : Int :=
  if base = 0 then
    match s with
    | [] => 0
    | c :: t =>
      if c = 43 then goParseInt0Body t
      else if c = 45 then -(goParseInt0Body t)
      else goParseInt0Body s
  else if 2 ≤ base ∧ base ≤ 36 then
    match s with
    | [] => 0
    | c :: t =>
      if c = 43 then
        (if !t.isEmpty && t.all (fun d => baseDigVal d < base.toNat) then
          satInt64 (baseVal base.toNat t) else 0)
      else if c = 45 then
        (if !t.isEmpty && t.all (fun d => baseDigVal d < base.toNat) then
          satInt64 (-(baseVal base.toNat t : Int)) else 0)
      else if !s.isEmpty && s.all (fun d => baseDigVal d < base.toNat) then
        satInt64 (baseVal base.toNat s) else 0
  else 0

/-- ASCII decimal representation of a natural number (auxiliary,
structural recursion on a fuel that the wrapper instantiates with the
number itself, which is an upper bound on the digit count). -/
def natReprAux : Nat → Nat → List Nat
  | 0, _ => []
  | _ + 1, 0 => []
  | fuel + 1, n + 1 => natReprAux fuel ((n + 1) / 10) ++ [(n + 1) % 10 + 48]

/-- ASCII decimal representation of a natural number (Go strconv.Itoa on
nonnegative input). -/
def natRepr (n : Nat) : List Nat := if n = 0 then [48] else natReprAux n n

/-- Go strconv.Itoa: ASCII decimal representation of an int. -/
def intRepr (v : Int) : List Nat :=
  if v < 0 then 45 :: natRepr v.natAbs else natRepr v.toNat

/-- Tokenizer.readNumber: accepts PS syntax (radix and exponents).
Returns `none` when it is not a number (Go returns false after
resetting `pos` to the marked entry position; the caller then resumes
from the entry position). On success, returns the token and the net
position.  The byte that terminated the number is pushed back
(`if ok { pr.pos-- }`).

The sign read uses a blank for the flag (`c, _ = pr.read()`), so `ok`
keeps its previous value there, exactly as in Go.  Go's shared tail
(`if radix != ""`) is distributed into the branches: the dot and the
exponent branches never set `radix`, and the `#` branch checks the
accumulated prefix for emptiness exactly as `radix != ""` does. -/
def readNumber (data : List Nat) (pos : Nat) : Option (Token × Nat) :=
  let r0 := readB data pos
  let c0 := r0.1
  let sgn := c0 = 43 ∨ c0 = 45
  let c1 := if sgn then (readB data r0.2.2).1 else c0
  let ok1 := r0.2.1
  let p1 := if sgn then (readB data r0.2.2).2.2 else r0.2.2
  let sb1 : List Nat := if sgn then [c0] else []
  let hasDigit := isDigit c1
  let d := digitLoop data c1 ok1 p1 sb1
  let c2 := d.1
  let ok2 := d.2.1
  let p2 := d.2.2.1
  let sb2 := d.2.2.2
  if c2 = 46 then
    let r3 := readB data p2
    let d2 := digitLoop data r3.1 r3.2.1 r3.2.2 (sb2 ++ [46])
    some (⟨Kind.float, d2.2.2.2⟩, if d2.2.1 then d2.2.2.1 - 1 else d2.2.2.1)
  else if c2 = 35 then
    let radix := sb2
    let r3 := readB data p2
    if isDigit r3.1 then
      let d2 := digitLoop data r3.1 r3.2.1 r3.2.2 []
      let p3 := if d2.2.1 then d2.2.2.1 - 1 else d2.2.2.1
      some (if radix ≠ [] then
              ⟨Kind.integer, intRepr (goParseInt d2.2.2.2 (goAtoi radix))⟩
            else ⟨Kind.float, d2.2.2.2⟩, p3)
    else none
  else if sb2 = [] ∨ hasDigit = false then none
  else if c2 = 69 ∨ c2 = 101 then
    let r3 := readB data p2
    let minus := r3.1 = 45
    let c4 := if minus then (readB data r3.2.2).1 else r3.1
    let ok4 := if minus then (readB data r3.2.2).2.1 else r3.2.1
    let p4 := if minus then (readB data r3.2.2).2.2 else r3.2.2
    let sb4 := if minus then sb2 ++ [c2, 45] else sb2 ++ [c2]
    if isDigit c4 then
      let d2 := digitLoop data c4 ok4 p4 sb4
      some (⟨Kind.float, d2.2.2.2⟩, if d2.2.1 then d2.2.2.1 - 1 else d2.2.2.1)
    else none
  else some (⟨Kind.integer, sb2⟩, if ok2 then p2 - 1 else p2)

/-- Token.Int used by the CharString trigger: Go parses the value with
strconv.ParseFloat and truncates.  Integer-kind tokens produced by this
tokenizer always carry an optionally signed decimal digit string, on
which the float64 round trip is exact for all values the claims touch;
the parse error branch is empty/invalid input. -/
def tokenInt (v : List Nat) : Option Int :=
  match v with
  | [] => none
  | c :: t =>
    if c = 43 then (if decDigits t then some (digitsVal t) else none)
    else if c = 45 then (if decDigits t then some (-(digitsVal t : Int)) else none)
    else if decDigits v then some (digitsVal v) else none

/-- Tokenizer.readCharString: `pos` is the net position after the RD or
the vertical-bar operator word (pointing at the separator byte); one byte
is skipped, then `n` bytes are sliced with the upper bound capped at the
buffer length, and `pos` advances by the uncapped `n`.  The Go slice
expression `pr.data[pr.pos:maxL]` panics when `maxL < pr.pos` (negative
`n`), modelled by `none`. -/
def readCharString (data : List Nat) (pos : Nat) (n : Int) :
    Option (Token × Option Err × Nat) :=
  if ((pos + 1 : Nat) : Int) ≤
      (if (data.length : Int) ≤ ((pos + 1 : Nat) : Int) + n then (data.length : Int)
       else ((pos + 1 : Nat) : Int) + n) then
    some (⟨Kind.charString,
      (data.drop (pos + 1)).take
        ((if (data.length : Int) ≤ ((pos + 1 : Nat) : Int) + n then (data.length : Int)
          else ((pos + 1 : Nat) : Int) + n) - ((pos + 1 : Nat) : Int)).toNat⟩, none,
      (((pos + 1 : Nat) : Int) + n).toNat)
  else none

/-- Outcome of one scan, before the CharString trigger is resolved.
Go's `nextToken(previous)` consults `previous` in exactly one place:
when the accumulated operator word is `RD` or `-|`.  The scan up to that
point is independent of `previous`, so it is factored out here;
`trigger p` means the word was `RD` or `-|` with net position `p`, and
`nextToken` below resolves it against the previous token. -/
inductive ScanOut where
  | done (t : Token) (e : Option Err) (pos : Nat)
  | trigger (pos : Nat)
deriving DecidableEq, Repr

/-- Net position of a scan outcome. -/
def ScanOut.outPos : ScanOut → Nat
  | .done _ _ p => p
  | .trigger p => p

/-- The whitespace skip at the head of Tokenizer.nextToken: the first
read followed by the whitespace loop.  Returns the dispatch byte, the
`ok` flag, and the position after that byte. -/
def scanStart (data : List Nat) (pos : Nat) : Nat × Bool × Nat :=
  if pos < data.length then skipWsCh data (data.getD pos 0) true (pos + 1)
  else (0, false, pos)

/-- The previous-token-independent part of Tokenizer.nextToken: skip
whitespace, dispatch on the first byte, run the matching scanner.
Comments recurse; the recursion is guarded by the bound needed for
termination, whose failure implies the read at the new position fails,
in which case the Go recursion returns the EOF token immediately — the
`else` branch returns exactly that. -/
def nextTokenCore (data : List Nat) (pos : Nat) : ScanOut :=
  if (scanStart data pos).2.1 = false then .done ⟨Kind.eof, []⟩ none (scanStart data pos).2.2
  else if (scanStart data pos).1 = 91 then .done ⟨Kind.startArray, []⟩ none (scanStart data pos).2.2
  else if (scanStart data pos).1 = 93 then .done ⟨Kind.endArray, []⟩ none (scanStart data pos).2.2
  else if (scanStart data pos).1 = 123 then .done ⟨Kind.startProc, []⟩ none (scanStart data pos).2.2
  else if (scanStart data pos).1 = 125 then .done ⟨Kind.endProc, []⟩ none (scanStart data pos).2.2
  else if (scanStart data pos).1 = 47 then
    .done (nameLoop data (scanStart data pos).2.2 []).1
      (nameLoop data (scanStart data pos).2.2 []).2.1
      (nameLoop data (scanStart data pos).2.2 []).2.2
  else if (scanStart data pos).1 = 62 then
    if (scanStart data pos).2.2 < data.length then
      if data.getD (scanStart data pos).2.2 0 = 62 then
        .done ⟨Kind.endDic, []⟩ none ((scanStart data pos).2.2 + 1)
      else .done zeroToken (some Err.dictCloseExpected) ((scanStart data pos).2.2 + 1)
    else .done zeroToken (some Err.dictCloseExpected) (scanStart data pos).2.2
  else if (scanStart data pos).1 = 60 then
    if (scanStart data pos).2.2 < data.length then
      if data.getD (scanStart data pos).2.2 0 = 60 then
        .done ⟨Kind.startDic, []⟩ none ((scanStart data pos).2.2 + 1)
      else
        .done (hexLoop data (data.getD (scanStart data pos).2.2 0) true
            ((scanStart data pos).2.2 + 1) []).1
          (hexLoop data (data.getD (scanStart data pos).2.2 0) true
            ((scanStart data pos).2.2 + 1) []).2.1
          (hexLoop data (data.getD (scanStart data pos).2.2 0) true
            ((scanStart data pos).2.2 + 1) []).2.2
    else
      .done (hexLoop data 0 false (scanStart data pos).2.2 []).1
        (hexLoop data 0 false (scanStart data pos).2.2 []).2.1
        (hexLoop data 0 false (scanStart data pos).2.2 []).2.2
  else if (scanStart data pos).1 = 37 then
    if hg : pos < skipComment data (scanStart data pos).2.2 ∧
        skipComment data (scanStart data pos).2.2 ≤ data.length then
      nextTokenCore data (skipComment data (scanStart data pos).2.2)
    else .done ⟨Kind.eof, []⟩ none (skipComment data (scanStart data pos).2.2)
  else if (scanStart data pos).1 = 40 then
    .done (stringLoop data 0 [] (scanStart data pos).2.2).1
      (stringLoop data 0 [] (scanStart data pos).2.2).2.1
      (stringLoop data 0 [] (scanStart data pos).2.2).2.2
  else
    match readNumber data ((scanStart data pos).2.2 - 1) with
    | some (t, p2) => .done t none p2
    | none =>
      if (wordLoop data ((scanStart data pos).2.2 - 1 + 1) [(scanStart data pos).1]).1 =
            [82, 68] ∨
          (wordLoop data ((scanStart data pos).2.2 - 1 + 1) [(scanStart data pos).1]).1 =
            [45, 124] then
        .trigger (wordLoop data ((scanStart data pos).2.2 - 1 + 1) [(scanStart data pos).1]).2
      else
        .done ⟨Kind.other,
            (wordLoop data ((scanStart data pos).2.2 - 1 + 1) [(scanStart data pos).1]).1⟩
          none
          (wordLoop data ((scanStart data pos).2.2 - 1 + 1) [(scanStart data pos).1]).2
termination_by data.length + 1 - pos
decreasing_by simp_wf; omega

/-- Tokenizer.nextToken: the scan above, with the CharString trigger
resolved against `previous` exactly as in Go: an Integer previous token
gives `readCharString` of its parsed length; a failed parse or a
non-Integer previous token gives the corresponding error with the Go
zero token.  `none` models the Go run-time panic. -/
def nextToken (data : List Nat) (previous : Token) (pos : Nat) :
    Option (Token × Option Err × Nat) :=
  match nextTokenCore data pos with
  | .done t e p => some (t, e, p)
  | .trigger p =>
    if previous.kind = Kind.integer then
      match tokenInt previous.value with
      | some n => readCharString data p n
      | none => some (zeroToken, some Err.charStringLengthInvalid, p)
    else some (zeroToken, some Err.charStringLeaderMissing, p)

/-- Tokenizer state in slice mode (`src == nil`): the buffer, the two
lookahead slots with their cached errors, and the three positions. -/
structure Tok where
  data : List Nat
  aToken : Token
  aError : Option Err
  aaToken : Token
  aaError : Option Err
  pos : Nat
  currentPos : Nat
  nextPos : Nat
deriving DecidableEq, Repr

/-- Token.startsBinary: an Other token whose value is `stream` or `ID`. -/
def startsBinary (t : Token) : Bool :=
  decide (t.kind = Kind.other ∧
    (t.value = [115, 116, 114, 101, 97, 109] ∨ t.value = [73, 68]))

/-- Tokenizer.SetPosition: reset the cursor and re-prime both lookahead
slots with two scans (the first with the zero token as previous). -/
def setPosition (tk : Tok) (p : Nat) : Option Tok :=
  match nextToken tk.data zeroToken p with
  | none => none
  | some (t1, e1, pos1) =>
    match nextToken tk.data t1 pos1 with
    | none => none
    | some (t2, e2, pos2) =>
      some { tk with currentPos := p, aToken := t1, aError := e1, nextPos := pos1,
                     aaToken := t2, aaError := e2, pos := pos2 }

/-- NewTokenizer: bind the buffer and call SetPosition 0. -/
def mkTokenizer (data : List Nat) : Option Tok :=
  setPosition ⟨data, zeroToken, none, zeroToken, none, 0, 0, 0⟩ 0

/-- Tokenizer.PeekToken. -/
def peekToken (tk : Tok) : Token × Option Err := (tk.aToken, tk.aError)

/-- Tokenizer.PeekPeekToken. -/
def peekPeekToken (tk : Tok) : Token × Option Err := (tk.aaToken, tk.aaError)

/-- Tokenizer.IsEOF: the +1 token has kind EOF (the error is ignored). -/
def isEOF (tk : Tok) : Bool := decide (tk.aToken.kind = Kind.eof)

/-- Tokenizer.NextToken: return the +1 slot, promote +2 to +1, and fill
the +2 slot — with `(EOF, nil)` and no scan if the newly promoted +1
token startsBinary (the stream and inline-image short-circuit),
otherwise with a fresh scan whose previous token is the promoted one. -/
def nextTokenPub (tk : Tok) : Option (Token × Option Err × Tok) :=
  if startsBinary tk.aaToken then
    some (tk.aToken, tk.aError,
      { tk with aToken := tk.aaToken, aError := tk.aaError,
                currentPos := tk.nextPos, nextPos := tk.pos,
                aaToken := ⟨Kind.eof, []⟩, aaError := none })
  else
    match nextToken tk.data tk.aaToken tk.pos with
    | none => none
    | some (t2, e2, pos2) =>
      some (tk.aToken, tk.aError,
        { tk with aToken := tk.aaToken, aError := tk.aaError,
                  currentPos := tk.nextPos, nextPos := tk.pos,
                  aaToken := t2, aaError := e2, pos := pos2 })

/-- Second half of Tokenizer.StreamPosition: consume one LF if present
and return the offset after it, else stay. -/
def streamPosInner (data : List Nat) (p : Nat) : Nat :=
  if p < data.length ∧ data.getD p 0 = 10 then p + 1 else p

/-- Tokenizer.StreamPosition in slice mode: skip one CR if present, then
one LF if present (returning just past the LF), else stay. -/
def streamPosition (tk : Tok) : Nat :=
  if tk.currentPos < tk.data.length ∧ tk.data.getD tk.currentPos 0 = 13 then
    streamPosInner tk.data (tk.currentPos + 1)
  else streamPosInner tk.data tk.currentPos

/-- Tokenizer.SkipBytes: slice up to `n` bytes from currentPos with the
target truncated at the buffer length, then SetPosition there.  The Go
slice panics (`none`) when currentPos already exceeds the buffer
length. -/
def skipBytes (tk : Tok) (n : Nat) : Option (List Nat × Tok) :=
  let target := min (tk.currentPos + n) tk.data.length
  if tk.currentPos ≤ target then
    match setPosition tk target with
    | none => none
    | some tk2 => some ((tk.data.drop tk.currentPos).take (target - tk.currentPos), tk2)
  else none

/-- States reachable through the public constructor and mutators. -/
inductive Reach : Tok → Prop where
  | mk (data : List Nat) (tk : Tok) : mkTokenizer data = some tk → Reach tk
  | setPos (tk : Tok) (p : Nat) (tk2 : Tok) :
      Reach tk → setPosition tk p = some tk2 → Reach tk2
  | next (tk : Tok) (t : Token) (e : Option Err) (tk2 : Tok) :
      Reach tk → nextTokenPub tk = some (t, e, tk2) → Reach tk2
  | skip (tk : Tok) (n : Nat) (out : List Nat) (tk2 : Tok) :
      Reach tk → skipBytes tk n = some (out, tk2) → Reach tk2

theorem digitLoop_mono (data : List Nat) (c : Nat) (ok : Bool) (pos : Nat)
    (sb : List Nat) : pos ≤ (digitLoop data c ok pos sb).2.2.1 := by
  induction c, ok, pos, sb using digitLoop.induct data with
  | case1 c ok pos sb hd h ih =>
    rw [digitLoop, if_pos hd, dif_pos h]
    omega
  | case2 c ok pos sb hd h =>
    rw [digitLoop, if_pos hd, dif_neg h]
  | case3 c ok pos sb hd =>
    rw [digitLoop, if_neg hd]

theorem digitLoop_ok_lt (data : List Nat) (c : Nat) (ok : Bool) (pos : Nat)
    (sb : List Nat) (m : Nat) (h1 : isDigit c = true → m < pos)
    (h2 : ok = true → m < pos) :
    (digitLoop data c ok pos sb).2.1 = true → m < (digitLoop data c ok pos sb).2.2.1 := by
  induction c, ok, pos, sb using digitLoop.induct data generalizing m with
  | case1 c ok pos sb hd h ih =>
    rw [digitLoop, if_pos hd, dif_pos h]
    exact ih (m := m) (fun _ => by have := h1 hd; omega) (fun _ => by have := h1 hd; omega)
  | case2 c ok pos sb hd h =>
    rw [digitLoop, if_pos hd, dif_neg h]
    intro hfalse
    simp at hfalse
  | case3 c ok pos sb hd =>
    rw [digitLoop, if_neg hd]
    exact h2

theorem wordLoop_mono (data : List Nat) (pos : Nat) (buf : List Nat) :
    pos ≤ (wordLoop data pos buf).2 := by
  induction pos, buf using wordLoop.induct data with
  | case1 pos buf h hd =>
    rw [wordLoop, dif_pos h, if_pos hd]
  | case2 pos buf h hd ih =>
    rw [wordLoop, dif_pos h, if_neg hd]
    omega
  | case3 pos buf h =>
    rw [wordLoop, dif_neg h]

theorem nameLoop_facts (data : List Nat) (pos : Nat) (buf : List Nat) :
    pos ≤ (nameLoop data pos buf).2.2 ∧
      (∀ e, (nameLoop data pos buf).2.1 = some e → (nameLoop data pos buf).1 = zeroToken) := by
  induction pos, buf using nameLoop.induct data with
  | case1 pos buf h hd =>
    rw [nameLoop, dif_pos h, if_pos hd]
    exact ⟨le_rfl, fun e he => by simp at he⟩
  | case2 pos buf h hd h35 h1 h2 hx ih =>
    rw [nameLoop, dif_pos h, if_neg hd, if_pos h35, dif_pos h1, dif_pos h2, if_pos hx]
    exact ⟨le_trans (by omega) ih.1, ih.2⟩
  | case3 pos buf h hd h35 h1 h2 hx =>
    rw [nameLoop, dif_pos h, if_neg hd, if_pos h35, dif_pos h1, dif_pos h2, if_neg hx]
    exact ⟨Nat.le_add_right pos 3, fun e he => rfl⟩
  | case4 pos buf h hd h35 h1 h2 =>
    rw [nameLoop, dif_pos h, if_neg hd, if_pos h35, dif_pos h1, dif_neg h2]
    exact ⟨Nat.le_add_right pos 2, fun e he => rfl⟩
  | case5 pos buf h hd h35 h1 =>
    rw [nameLoop, dif_pos h, if_neg hd, if_pos h35, dif_neg h1]
    exact ⟨Nat.le_add_right pos 1, fun e he => rfl⟩
  | case6 pos buf h hd h35 ih =>
    rw [nameLoop, dif_pos h, if_neg hd, if_neg h35]
    exact ⟨le_trans (by omega) ih.1, ih.2⟩
  | case7 pos buf h =>
    rw [nameLoop, dif_neg h]
    exact ⟨le_rfl, fun e he => by simp at he⟩

theorem hexLoop_facts (data : List Nat) (c : Nat) (ok : Bool) (pos : Nat)
    (buf : List Nat) :
    pos ≤ (hexLoop data c ok pos buf).2.2 ∧
      (∀ e, (hexLoop data c ok pos buf).2.1 = some e →
        (hexLoop data c ok pos buf).1 = zeroToken) := by
  induction c, ok, pos, buf using hexLoop.induct data with
  | case1 c ok pos buf h62 =>
    rw [hexLoop, if_pos h62]
    exact ⟨skipWsCh_mono data c ok pos, fun e he => by simp at he⟩
  | case2 c ok pos buf h62 hhex =>
    rw [hexLoop, if_neg h62, hhex]
    exact ⟨skipWsCh_mono data c ok pos, fun e he => rfl⟩
  | case3 c ok pos buf h62 h1 hhex hr h62b =>
    rw [hexLoop, if_neg h62]
    simp only [hhex, dif_pos hr, if_pos h62b]
    have a2 := skipWsCh_mono data (data.getD (skipWsCh data c ok pos).2.2 0) true
      ((skipWsCh data c ok pos).2.2 + 1)
    have a1 := skipWsCh_mono data c ok pos
    exact ⟨by omega, fun e he => by simp at he⟩
  | case4 c ok pos buf h62 h1 hhex hr h62b hhex2 =>
    rw [hexLoop, if_neg h62]
    simp only [hhex, dif_pos hr, if_neg h62b, hhex2]
    have a2 := skipWsCh_mono data (data.getD (skipWsCh data c ok pos).2.2 0) true
      ((skipWsCh data c ok pos).2.2 + 1)
    have a1 := skipWsCh_mono data c ok pos
    exact ⟨by omega, fun e he => by trivial⟩
  | case5 c ok pos buf h62 h1 hhex hr h62b h2 hhex2 hr2 ih =>
    rw [hexLoop, if_neg h62]
    simp only [hhex, dif_pos hr, if_neg h62b, hhex2, dif_pos hr2]
    have a2 := skipWsCh_mono data (data.getD (skipWsCh data c ok pos).2.2 0) true
      ((skipWsCh data c ok pos).2.2 + 1)
    have a1 := skipWsCh_mono data c ok pos
    exact ⟨le_trans (by omega) ih.1, ih.2⟩
  | case6 c ok pos buf h62 h1 hhex hr h62b h2 hhex2 hr2 ih =>
    rw [hexLoop, if_neg h62]
    simp only [hhex, dif_pos hr, if_neg h62b, hhex2, dif_neg hr2]
    have a2 := skipWsCh_mono data (data.getD (skipWsCh data c ok pos).2.2 0) true
      ((skipWsCh data c ok pos).2.2 + 1)
    have a1 := skipWsCh_mono data c ok pos
    exact ⟨le_trans (by omega) ih.1, ih.2⟩
  | case7 c ok pos buf h62 h1 hhex hr =>
    rw [hexLoop, if_neg h62]
    simp only [hhex, dif_neg hr]
    exact ⟨skipWsCh_mono data c ok pos, fun e he => by trivial⟩

theorem stringLoop_facts (data : List Nat) (nest : Int) (buf : List Nat) (pos : Nat) :
    pos ≤ (stringLoop data nest buf pos).2.2 ∧
      (∀ e, (stringLoop data nest buf pos).2.1 = some e →
        (stringLoop data nest buf pos).1 = zeroToken) := by
  suffices H : ∀ (k : Nat) (nest : Int) (buf : List Nat) (pos : Nat),
      data.length + 1 - pos ≤ k →
      pos ≤ (stringLoop data nest buf pos).2.2 ∧
        (∀ e, (stringLoop data nest buf pos).2.1 = some e →
          (stringLoop data nest buf pos).1 = zeroToken) by
    exact H (data.length + 1 - pos) nest buf pos le_rfl
  intro k
  induction k with
  | zero =>
    intro nest buf pos hk
    rw [stringLoop, dif_neg (by omega)]
    exact ⟨le_rfl, fun e he => rfl⟩
  | succ k ih =>
    intro nest buf pos hk
    have rec : ∀ (n2 : Int) (b2 : List Nat) (p2 : Nat), pos < p2 → p2 ≤ data.length →
        pos ≤ (stringLoop data n2 b2 p2).2.2 ∧
          (∀ e, (stringLoop data n2 b2 p2).2.1 = some e →
            (stringLoop data n2 b2 p2).1 = zeroToken) := by
      intro n2 b2 p2 hlt hle
      exact ⟨le_trans (le_of_lt hlt) ((ih n2 b2 p2 (by omega)).1), (ih n2 b2 p2 (by omega)).2⟩
    rw [stringLoop]
    by_cases h : pos < data.length
    case neg =>
      rw [dif_neg h]
      exact ⟨le_rfl, fun e he => rfl⟩
    rw [dif_pos h]
    by_cases c1 : data.getD pos 0 = 40
    case pos =>
      rw [if_pos c1]
      by_cases m : nest + 1 = -1
      · rw [if_pos m]
        exact ⟨Nat.le_add_right pos 1, fun e he => by simp at he⟩
      · rw [if_neg m]
        exact rec _ _ _ (by omega) (by omega)
    rw [if_neg c1]
    by_cases c2 : data.getD pos 0 = 41
    case pos =>
      rw [if_pos c2]
      by_cases m : nest - 1 = -1
      · rw [if_pos m]
        exact ⟨Nat.le_add_right pos 1, fun e he => by simp at he⟩
      · rw [if_neg m]
        exact rec _ _ _ (by omega) (by omega)
    rw [if_neg c2]
    by_cases c3 : data.getD pos 0 = 92
    case pos =>
      rw [if_pos c3]
      by_cases h2 : pos + 1 < data.length
      case neg =>
        rw [dif_neg h2]
        exact ⟨Nat.le_add_right pos 1, fun e he => rfl⟩
      rw [dif_pos h2]
      by_cases e1 : data.getD (pos + 1) 0 = 110
      case pos =>
        rw [if_pos e1]
        by_cases m : nest = -1
        · rw [if_pos m]
          exact ⟨Nat.le_add_right pos 2, fun e he => by simp at he⟩
        · rw [if_neg m]
          exact rec _ _ _ (by omega) (by omega)
      rw [if_neg e1]
      by_cases e2 : data.getD (pos + 1) 0 = 114
      case pos =>
        rw [if_pos e2]
        by_cases m : nest = -1
        · rw [if_pos m]
          exact ⟨Nat.le_add_right pos 2, fun e he => by simp at he⟩
        · rw [if_neg m]
          exact rec _ _ _ (by omega) (by omega)
      rw [if_neg e2]
      by_cases e3 : data.getD (pos + 1) 0 = 116
      case pos =>
        rw [if_pos e3]
        by_cases m : nest = -1
        · rw [if_pos m]
          exact ⟨Nat.le_add_right pos 2, fun e he => by simp at he⟩
        · rw [if_neg m]
          exact rec _ _ _ (by omega) (by omega)
      rw [if_neg e3]
      by_cases e4 : data.getD (pos + 1) 0 = 98
      case pos =>
        rw [if_pos e4]
        by_cases m : nest = -1
        · rw [if_pos m]
          exact ⟨Nat.le_add_right pos 2, fun e he => by simp at he⟩
        · rw [if_neg m]
          exact rec _ _ _ (by omega) (by omega)
      rw [if_neg e4]
      by_cases e5 : data.getD (pos + 1) 0 = 102
      case pos =>
        rw [if_pos e5]
        by_cases m : nest = -1
        · rw [if_pos m]
          exact ⟨Nat.le_add_right pos 2, fun e he => by simp at he⟩
        · rw [if_neg m]
          exact rec _ _ _ (by omega) (by omega)
      rw [if_neg e5]
      by_cases e6 : data.getD (pos + 1) 0 = 40 ∨ data.getD (pos + 1) 0 = 41 ∨
          data.getD (pos + 1) 0 = 92
      case pos =>
        rw [if_pos e6]
        by_cases m : nest = -1
        · rw [if_pos m]
          exact ⟨Nat.le_add_right pos 2, fun e he => by simp at he⟩
        · rw [if_neg m]
          exact rec _ _ _ (by omega) (by omega)
      rw [if_neg e6]
      by_cases e7 : data.getD (pos + 1) 0 = 13
      case pos =>
        rw [if_pos e7]
        by_cases h3 : pos + 2 < data.length
        case neg =>
          rw [dif_neg h3]
          exact rec _ _ _ (by omega) (by omega)
        rw [dif_pos h3]
        by_cases f1 : data.getD (pos + 2) 0 = 10
        · rw [if_pos f1]
          exact rec _ _ _ (by omega) (by omega)
        · rw [if_neg f1]
          exact rec _ _ _ (by omega) (by omega)
      rw [if_neg e7]
      by_cases e8 : data.getD (pos + 1) 0 = 10
      case pos =>
        rw [if_pos e8]
        exact rec _ _ _ (by omega) (by omega)
      rw [if_neg e8]
      by_cases e9 : 48 ≤ data.getD (pos + 1) 0 ∧ data.getD (pos + 1) 0 ≤ 55
      case pos =>
        rw [if_pos e9]
        by_cases h3 : pos + 2 < data.length
        case neg =>
          rw [dif_neg h3]
          exact ⟨Nat.le_add_right pos 1, fun e he => rfl⟩
        rw [dif_pos h3]
        by_cases f1 : 48 ≤ data.getD (pos + 2) 0 ∧ data.getD (pos + 2) 0 ≤ 55
        case neg =>
          rw [if_neg f1]
          by_cases m : nest = -1
          · rw [if_pos m]
            exact ⟨Nat.le_add_right pos 2, fun e he => by simp at he⟩
          · rw [if_neg m]
            exact rec _ _ _ (by omega) (by omega)
        rw [if_pos f1]
        by_cases h4 : pos + 3 < data.length
        case neg =>
          rw [dif_neg h4]
          exact ⟨Nat.le_add_right pos 2, fun e he => rfl⟩
        rw [dif_pos h4]
        by_cases g1 : 48 ≤ data.getD (pos + 3) 0 ∧ data.getD (pos + 3) 0 ≤ 55
        case neg =>
          rw [if_neg g1]
          by_cases m : nest = -1
          · rw [if_pos m]
            exact ⟨Nat.le_add_right pos 3, fun e he => by simp at he⟩
          · rw [if_neg m]
            exact rec _ _ _ (by omega) (by omega)
        rw [if_pos g1]
        by_cases m : nest = -1
        · rw [if_pos m]
          exact ⟨Nat.le_add_right pos 4, fun e he => by simp at he⟩
        · rw [if_neg m]
          exact rec _ _ _ (by omega) (by omega)
      rw [if_neg e9]
      by_cases m : nest = -1
      · rw [if_pos m]
        exact ⟨Nat.le_add_right pos 2, fun e he => by simp at he⟩
      · rw [if_neg m]
        exact rec _ _ _ (by omega) (by omega)
    rw [if_neg c3]
    by_cases c4 : data.getD pos 0 = 13
    case pos =>
      rw [if_pos c4]
      by_cases h2 : pos + 1 < data.length
      case neg =>
        rw [dif_neg h2]
        exact ⟨Nat.le_add_right pos 1, fun e he => rfl⟩
      rw [dif_pos h2]
      by_cases f1 : data.getD (pos + 1) 0 = 10
      case pos =>
        rw [if_pos f1]
        by_cases m : nest = -1
        · rw [if_pos m]
          exact ⟨Nat.le_add_right pos 2, fun e he => by simp at he⟩
        · rw [if_neg m]
          exact rec _ _ _ (by omega) (by omega)
      rw [if_neg f1]
      by_cases m : nest = -1
      · rw [if_pos m]
        exact ⟨Nat.le_add_right pos 1, fun e he => by simp at he⟩
      · rw [if_neg m]
        exact rec _ _ _ (by omega) (by omega)
    rw [if_neg c4]
    by_cases m : nest = -1
    · rw [if_pos m]
      exact ⟨Nat.le_add_right pos 1, fun e he => by simp at he⟩
    · rw [if_neg m]
      exact rec _ _ _ (by omega) (by omega)

theorem readB_ge (data : List Nat) (pos : Nat) :
    pos ≤ (readB data pos).2.2 ∧ (readB data pos).2.2 ≤ pos + 1 := by
  rw [readB]
  by_cases h : pos < data.length
  · rw [if_pos h]
    exact ⟨Nat.le_add_right pos 1, le_rfl⟩
  · rw [if_neg h]
    exact ⟨le_rfl, Nat.le_add_right pos 1⟩

theorem readB_ok_eq (data : List Nat) (pos : Nat) :
    (readB data pos).2.1 = true → (readB data pos).2.2 = pos + 1 := by
  rw [readB]
  by_cases h : pos < data.length
  · rw [if_pos h]
    intro
    rfl
  · rw [if_neg h]
    intro hf
    simp at hf

theorem readB_digit_eq (data : List Nat) (pos : Nat) :
    isDigit (readB data pos).1 = true → (readB data pos).2.2 = pos + 1 := by
  rw [readB]
  by_cases h : pos < data.length
  · rw [if_pos h]
    intro
    rfl
  · rw [if_neg h]
    intro hf
    simp [isDigit] at hf

theorem readB_val_eq (data : List Nat) (pos : Nat) :
    (readB data pos).1 ≠ 0 → (readB data pos).2.2 = pos + 1 := by
  rw [readB]
  by_cases h : pos < data.length
  · rw [if_pos h]
    intro
    rfl
  · rw [if_neg h]
    intro hf
    simp at hf

/-- Net position of a digit loop whose input was read at `pos1`,
followed by the `if ok then pos--` pushback: never below `pos0` when
`pos0 ≤ pos1`. -/
theorem pushAfter_ge (data : List Nat) (pos0 pos1 : Nat) (sb : List Nat)
    (h0 : pos0 ≤ pos1) :
    pos0 ≤ (if (digitLoop data (readB data pos1).1 (readB data pos1).2.1
          (readB data pos1).2.2 sb).2.1 = true then
        (digitLoop data (readB data pos1).1 (readB data pos1).2.1
          (readB data pos1).2.2 sb).2.2.1 - 1
      else
        (digitLoop data (readB data pos1).1 (readB data pos1).2.1
          (readB data pos1).2.2 sb).2.2.1) := by
  have hm := digitLoop_mono data (readB data pos1).1 (readB data pos1).2.1
    (readB data pos1).2.2 sb
  have hb := readB_ge data pos1
  by_cases hok : (digitLoop data (readB data pos1).1 (readB data pos1).2.1
      (readB data pos1).2.2 sb).2.1 = true
  · rw [if_pos hok]
    have hk := digitLoop_ok_lt data (readB data pos1).1 (readB data pos1).2.1
      (readB data pos1).2.2 sb pos0
      (fun hd => by have := readB_digit_eq data pos1 hd; omega)
      (fun ho => by have := readB_ok_eq data pos1 ho; omega) hok
    omega
  · rw [if_neg hok]
    omega

/-- General form of `pushAfter_ge`: any digit loop whose entry
guarantees `pos0 < pos` whenever the current byte is a digit or the
flag is set keeps the pushed-back net position at or above `pos0`. -/
theorem pushGen_ge (data : List Nat) (pos0 : Nat) (c : Nat) (ok : Bool) (pos : Nat)
    (sb : List Nat) (h1 : isDigit c = true → pos0 < pos)
    (h2 : ok = true → pos0 < pos) (h0 : pos0 ≤ pos) :
    pos0 ≤ (if (digitLoop data c ok pos sb).2.1 = true then
        (digitLoop data c ok pos sb).2.2.1 - 1
      else (digitLoop data c ok pos sb).2.2.1) := by
  have hm := digitLoop_mono data c ok pos sb
  by_cases hok : (digitLoop data c ok pos sb).2.1 = true
  · rw [if_pos hok]
    have hk := digitLoop_ok_lt data c ok pos sb pos0 h1 h2 hok
    omega
  · rw [if_neg hok]
    omega

theorem readNumber_mono (data : List Nat) (pos : Nat) (t : Token) (p : Nat)
    (h : readNumber data pos = some (t, p)) : pos ≤ p := by
  rw [readNumber] at h
  by_cases hs : (readB data pos).1 = 43 ∨ (readB data pos).1 = 45
  · simp only [hs, if_pos, if_true] at h
    set d := digitLoop data (readB data (readB data pos).2.2).1 (readB data pos).2.1
      (readB data (readB data pos).2.2).2.2 [(readB data pos).1] with hdf
    have hq : (readB data pos).2.2 = pos + 1 := by
      apply readB_val_eq
      rcases hs with hs | hs <;> omega
    have hD : pos ≤ d.2.2.1 := by
      rw [hdf]
      have a1 := (readB_ge data (readB data pos).2.2).1
      have a2 := digitLoop_mono data (readB data (readB data pos).2.2).1
        (readB data pos).2.1 (readB data (readB data pos).2.2).2.2 [(readB data pos).1]
      omega
    by_cases hc46 : d.1 = 46
    · simp only [hc46, if_pos, if_true] at h
      have key := pushAfter_ge data pos d.2.2.1 (d.2.2.2 ++ [46]) hD
      simp only [Option.some.injEq, Prod.mk.injEq] at h
      omega
    · simp only [hc46, if_neg, if_false] at h
      by_cases hc35 : d.1 = 35
      · simp only [hc35, if_pos, if_true] at h
        by_cases hg : isDigit (readB data d.2.2.1).1 = true
        · simp only [hg, if_pos, if_true] at h
          have key := pushAfter_ge data pos d.2.2.1 [] hD
          simp only [Option.some.injEq, Prod.mk.injEq] at h
          omega
        · simp only [hg, if_neg, if_false] at h
          simp at h
      · simp only [hc35, if_neg, if_false] at h
        by_cases hdec : d.2.2.2 = [] ∨ isDigit (readB data (readB data pos).2.2).1 = false
        · simp only [hdec, if_pos, if_true] at h
          simp at h
        · simp only [hdec, if_neg, if_false] at h
          by_cases hE : d.1 = 69 ∨ d.1 = 101
          · simp only [hE, if_pos, if_true] at h
            by_cases hm45 : (readB data d.2.2.1).1 = 45
            · simp only [hm45, if_pos, if_true] at h
              by_cases hg2 : isDigit (readB data (readB data d.2.2.1).2.2).1 = true
              · simp only [hg2, if_pos, if_true] at h
                have key := pushAfter_ge data pos (readB data d.2.2.1).2.2
                  (d.2.2.2 ++ [d.1, 45]) (le_trans hD (readB_ge data d.2.2.1).1)
                simp only [Option.some.injEq, Prod.mk.injEq] at h
                omega
              · simp only [hg2, if_neg, if_false] at h
                simp at h
            · simp only [hm45, if_neg, if_false] at h
              by_cases hg2 : isDigit (readB data d.2.2.1).1 = true
              · simp only [hg2, if_pos, if_true] at h
                have key := pushAfter_ge data pos d.2.2.1 (d.2.2.2 ++ [d.1]) hD
                simp only [Option.some.injEq, Prod.mk.injEq] at h
                omega
              · simp only [hg2, if_neg, if_false] at h
                simp at h
          · simp only [hE, if_neg, if_false] at h
            have e1 : isDigit (readB data (readB data pos).2.2).1 = true →
                pos < (readB data (readB data pos).2.2).2.2 := by
              intro hd
              have a := readB_digit_eq data (readB data pos).2.2 hd
              omega
            have e2 : (readB data pos).2.1 = true →
                pos < (readB data (readB data pos).2.2).2.2 := by
              intro ho
              have a := (readB_ge data (readB data pos).2.2).1
              omega
            have e3 : pos ≤ (readB data (readB data pos).2.2).2.2 := by
              have a := (readB_ge data (readB data pos).2.2).1
              omega
            have key := pushGen_ge data pos (readB data (readB data pos).2.2).1
              (readB data pos).2.1 (readB data (readB data pos).2.2).2.2
              [(readB data pos).1] e1 e2 e3
            rw [← hdf] at key
            simp only [Option.some.injEq, Prod.mk.injEq] at h
            omega
  · simp only [hs, if_neg, if_false] at h
    set d := digitLoop data (readB data pos).1 (readB data pos).2.1
      (readB data pos).2.2 [] with hdf
    have hD : pos ≤ d.2.2.1 := by
      rw [hdf]
      have a1 := (readB_ge data pos).1
      have a2 := digitLoop_mono data (readB data pos).1 (readB data pos).2.1
        (readB data pos).2.2 []
      omega
    by_cases hc46 : d.1 = 46
    · simp only [hc46, if_pos, if_true] at h
      have key := pushAfter_ge data pos d.2.2.1 (d.2.2.2 ++ [46]) hD
      simp only [Option.some.injEq, Prod.mk.injEq] at h
      omega
    · simp only [hc46, if_neg, if_false] at h
      by_cases hc35 : d.1 = 35
      · simp only [hc35, if_pos, if_true] at h
        by_cases hg : isDigit (readB data d.2.2.1).1 = true
        · simp only [hg, if_pos, if_true] at h
          have key := pushAfter_ge data pos d.2.2.1 [] hD
          simp only [Option.some.injEq, Prod.mk.injEq] at h
          omega
        · simp only [hg, if_neg, if_false] at h
          simp at h
      · simp only [hc35, if_neg, if_false] at h
        by_cases hdec : d.2.2.2 = [] ∨ isDigit (readB data pos).1 = false
        · simp only [hdec, if_pos, if_true] at h
          simp at h
        · simp only [hdec, if_neg, if_false] at h
          by_cases hE : d.1 = 69 ∨ d.1 = 101
          · simp only [hE, if_pos, if_true] at h
            by_cases hm45 : (readB data d.2.2.1).1 = 45
            · simp only [hm45, if_pos, if_true] at h
              by_cases hg2 : isDigit (readB data (readB data d.2.2.1).2.2).1 = true
              · simp only [hg2, if_pos, if_true] at h
                have key := pushAfter_ge data pos (readB data d.2.2.1).2.2
                  (d.2.2.2 ++ [d.1, 45]) (le_trans hD (readB_ge data d.2.2.1).1)
                simp only [Option.some.injEq, Prod.mk.injEq] at h
                omega
              · simp only [hg2, if_neg, if_false] at h
                simp at h
            · simp only [hm45, if_neg, if_false] at h
              by_cases hg2 : isDigit (readB data d.2.2.1).1 = true
              · simp only [hg2, if_pos, if_true] at h
                have key := pushAfter_ge data pos d.2.2.1 (d.2.2.2 ++ [d.1]) hD
                simp only [Option.some.injEq, Prod.mk.injEq] at h
                omega
              · simp only [hg2, if_neg, if_false] at h
                simp at h
          · simp only [hE, if_neg, if_false] at h
            have key := pushGen_ge data pos (readB data pos).1 (readB data pos).2.1
              (readB data pos).2.2 []
              (fun hd => by have := readB_digit_eq data pos hd; omega)
              (fun ho => by have := readB_ok_eq data pos ho; omega)
              (readB_ge data pos).1
            rw [← hdf] at key
            simp only [Option.some.injEq, Prod.mk.injEq] at h
            omega

theorem readCharString_facts (data : List Nat) (pos : Nat) (n : Int) (t : Token)
    (e : Option Err) (p : Nat) (h : readCharString data pos n = some (t, e, p)) :
    pos ≤ p ∧ e = none := by
  rw [readCharString] at h
  split at h
  case isTrue hcap =>
    simp only [Option.ite_none_right_eq_some, Option.some.injEq, Prod.mk.injEq] at h
    obtain ⟨hle, -, he, hp⟩ := h
    exact ⟨by omega, he.symm⟩
  case isFalse hcap =>
    simp only [Option.ite_none_right_eq_some, Option.some.injEq, Prod.mk.injEq] at h
    obtain ⟨hn, -, he, hp⟩ := h
    exact ⟨by omega, he.symm⟩

theorem scanStart_ge (data : List Nat) (pos : Nat) :
    pos ≤ (scanStart data pos).2.2 := by
  rw [scanStart]
  by_cases h : pos < data.length
  · rw [if_pos h]
    have := skipWsCh_mono data (data.getD pos 0) true (pos + 1)
    omega
  · rw [if_neg h]

theorem scanStart_ok_ge (data : List Nat) (pos : Nat) :
    (scanStart data pos).2.1 = true → pos + 1 ≤ (scanStart data pos).2.2 := by
  rw [scanStart]
  by_cases h : pos < data.length
  · rw [if_pos h]
    intro
    exact skipWsCh_mono data (data.getD pos 0) true (pos + 1)
  · rw [if_neg h]
    intro hf
    simp at hf

theorem nextTokenCore_facts (data : List Nat) (pos : Nat) :
    pos ≤ (nextTokenCore data pos).outPos ∧
      (∀ t e p, nextTokenCore data pos = ScanOut.done t (some e) p → t = zeroToken) := by
  suffices H : ∀ (k : Nat) (pos : Nat), data.length + 1 - pos ≤ k →
      pos ≤ (nextTokenCore data pos).outPos ∧
        (∀ t e p, nextTokenCore data pos = ScanOut.done t (some e) p → t = zeroToken) by
    exact H (data.length + 1 - pos) pos le_rfl
  intro k
  induction k with
  | zero =>
    intro pos hk
    have hss : scanStart data pos = (0, false, pos) := by
      rw [scanStart, if_neg (by omega)]
    rw [nextTokenCore, hss]
    rw [if_pos rfl]
    exact ⟨le_rfl, fun t e p hh => by simp at hh⟩
  | succ k ih =>
    intro pos hk
    have hge := scanStart_ge data pos
    rw [nextTokenCore]
    by_cases hok : (scanStart data pos).2.1 = false
    · rw [if_pos hok]
      exact ⟨hge, fun t e p hh => by simp at hh⟩
    · rw [if_neg hok]
      have hok1 : pos + 1 ≤ (scanStart data pos).2.2 :=
        scanStart_ok_ge data pos (by revert hok; cases (scanStart data pos).2.1 <;> simp)
      by_cases c91 : (scanStart data pos).1 = 91
      · rw [if_pos c91]
        exact ⟨hge, fun t e p hh => by simp at hh⟩
      · rw [if_neg c91]
        by_cases c93 : (scanStart data pos).1 = 93
        · rw [if_pos c93]
          exact ⟨hge, fun t e p hh => by simp at hh⟩
        · rw [if_neg c93]
          by_cases c123 : (scanStart data pos).1 = 123
          · rw [if_pos c123]
            exact ⟨hge, fun t e p hh => by simp at hh⟩
          · rw [if_neg c123]
            by_cases c125 : (scanStart data pos).1 = 125
            · rw [if_pos c125]
              exact ⟨hge, fun t e p hh => by simp at hh⟩
            · rw [if_neg c125]
              by_cases c47 : (scanStart data pos).1 = 47
              · rw [if_pos c47]
                have hn := nameLoop_facts data (scanStart data pos).2.2 []
                refine ⟨le_trans hge hn.1, fun t e p hh => ?_⟩
                injection hh with a b c
                rw [← a]
                exact hn.2 e b
              · rw [if_neg c47]
                by_cases c62 : (scanStart data pos).1 = 62
                · rw [if_pos c62]
                  by_cases hlt : (scanStart data pos).2.2 < data.length
                  · rw [if_pos hlt]
                    by_cases hgt : data.getD (scanStart data pos).2.2 0 = 62
                    · rw [if_pos hgt]
                      exact ⟨le_trans hge (Nat.le_succ _), fun t e p hh => by simp at hh⟩
                    · rw [if_neg hgt]
                      refine ⟨le_trans hge (Nat.le_succ _), fun t e p hh => ?_⟩
                      injection hh with a b c
                      exact a.symm
                  · rw [if_neg hlt]
                    refine ⟨hge, fun t e p hh => ?_⟩
                    injection hh with a b c
                    exact a.symm
                · rw [if_neg c62]
                  by_cases c60 : (scanStart data pos).1 = 60
                  · rw [if_pos c60]
                    by_cases hlt : (scanStart data pos).2.2 < data.length
                    · rw [if_pos hlt]
                      by_cases hgt : data.getD (scanStart data pos).2.2 0 = 60
                      · rw [if_pos hgt]
                        exact ⟨le_trans hge (Nat.le_succ _), fun t e p hh => by simp at hh⟩
                      · rw [if_neg hgt]
                        have hx := hexLoop_facts data (data.getD (scanStart data pos).2.2 0)
                          true ((scanStart data pos).2.2 + 1) []
                        refine ⟨le_trans (le_trans hge (Nat.le_succ _)) hx.1,
                          fun t e p hh => ?_⟩
                        injection hh with a b c
                        rw [← a]
                        exact hx.2 e b
                    · rw [if_neg hlt]
                      have hx := hexLoop_facts data 0 false (scanStart data pos).2.2 []
                      refine ⟨le_trans hge hx.1, fun t e p hh => ?_⟩
                      injection hh with a b c
                      rw [← a]
                      exact hx.2 e b
                  · rw [if_neg c60]
                    by_cases c37 : (scanStart data pos).1 = 37
                    · rw [if_pos c37]
                      by_cases hg : pos < skipComment data (scanStart data pos).2.2 ∧
                          skipComment data (scanStart data pos).2.2 ≤ data.length
                      · rw [dif_pos hg]
                        have := ih (skipComment data (scanStart data pos).2.2) (by omega)
                        exact ⟨le_trans (le_of_lt hg.1) this.1, this.2⟩
                      · rw [dif_neg hg]
                        have := skipComment_mono data (scanStart data pos).2.2
                        exact ⟨le_trans hge this, fun t e p hh => by simp at hh⟩
                    · rw [if_neg c37]
                      by_cases c40 : (scanStart data pos).1 = 40
                      · rw [if_pos c40]
                        have hx := stringLoop_facts data 0 [] (scanStart data pos).2.2
                        refine ⟨le_trans hge hx.1, fun t e p hh => ?_⟩
                        injection hh with a b c
                        rw [← a]
                        exact hx.2 e b
                      · rw [if_neg c40]
                        rcases hrn : readNumber data ((scanStart data pos).2.2 - 1) with
                          _ | ⟨t2, p2⟩
                        · simp only [hrn]
                          have hw := wordLoop_mono data ((scanStart data pos).2.2 - 1 + 1)
                            [(scanStart data pos).1]
                          by_cases htr : (wordLoop data ((scanStart data pos).2.2 - 1 + 1)
                              [(scanStart data pos).1]).1 = [82, 68] ∨
                            (wordLoop data ((scanStart data pos).2.2 - 1 + 1)
                              [(scanStart data pos).1]).1 = [45, 124]
                          · rw [if_pos htr]
                            exact ⟨le_trans (by omega) hw, fun t e p hh => by simp at hh⟩
                          · rw [if_neg htr]
                            exact ⟨le_trans (by omega) hw, fun t e p hh => by simp at hh⟩
                        · simp only [hrn]
                          have := readNumber_mono data ((scanStart data pos).2.2 - 1) t2 p2 hrn
                          exact ⟨le_trans (by omega) this, fun t e p hh => by simp at hh⟩

theorem nextToken_facts (data : List Nat) (prev : Token) (pos : Nat) (t : Token)
    (e : Option Err) (p : Nat) (h : nextToken data prev pos = some (t, e, p)) :
    pos ≤ p ∧ (∀ e2, e = some e2 → t = zeroToken) := by
  have hcf := nextTokenCore_facts data pos
  rw [nextToken] at h
  rcases hc : nextTokenCore data pos with ⟨t1, e1, p1⟩ | p1
  · rw [hc] at hcf
    simp only [hc, Option.some.injEq, Prod.mk.injEq] at h
    obtain ⟨h1, h2, h3⟩ := h
    constructor
    · have hx := hcf.1
      rw [h3] at hx
      exact hx
    · intro e2 he
      have hz := hcf.2 t1 e2 p1 (by rw [h2, he])
      rw [← h1]
      exact hz
  · rw [hc] at hcf
    simp only [hc] at h
    by_cases hk : prev.kind = Kind.integer
    · rw [if_pos hk] at h
      rcases hti : tokenInt prev.value with _ | n
      · simp only [hti, Option.some.injEq, Prod.mk.injEq] at h
        obtain ⟨h1, h2, h3⟩ := h
        refine ⟨?_, fun e2 he => h1.symm⟩
        have hx := hcf.1
        rw [h3] at hx
        exact hx
      · simp only [hti] at h
        have hr := readCharString_facts data p1 n t e p h
        refine ⟨le_trans hcf.1 hr.1, fun e2 he => ?_⟩
        rw [hr.2] at he
        cases he
    · rw [if_neg hk] at h
      simp only [Option.some.injEq, Prod.mk.injEq] at h
      obtain ⟨h1, h2, h3⟩ := h
      refine ⟨?_, fun e2 he => h1.symm⟩
      have hx := hcf.1
      rw [h3] at hx
      exact hx

/-- The state invariant maintained by every public operation: ordered
positions and the zero token paired with any cached error. -/
def invar (tk : Tok) : Prop :=
  tk.currentPos ≤ tk.nextPos ∧ tk.nextPos ≤ tk.pos ∧
    (∀ e, tk.aError = some e → tk.aToken = zeroToken) ∧
    (∀ e, tk.aaError = some e → tk.aaToken = zeroToken)

theorem setPosition_facts (tk : Tok) (p : Nat) (tk2 : Tok)
    (h : setPosition tk p = some tk2) : invar tk2 ∧ tk2.currentPos = p := by
  rw [setPosition] at h
  rcases h1 : nextToken tk.data zeroToken p with _ | ⟨t1, e1, pos1⟩
  · simp only [h1] at h
    exact Option.noConfusion h
  · simp only [h1] at h
    rcases h2 : nextToken tk.data t1 pos1 with _ | ⟨t2, e2, pos2⟩
    · simp only [h2] at h
      exact Option.noConfusion h
    · simp only [h2, Option.some.injEq] at h
      subst h
      have f1 := nextToken_facts tk.data zeroToken p t1 e1 pos1 h1
      have f2 := nextToken_facts tk.data t1 pos1 t2 e2 pos2 h2
      exact ⟨⟨f1.1, f2.1, f1.2, f2.2⟩, rfl⟩

theorem nextTokenPub_facts (tk : Tok) (t : Token) (e : Option Err) (tk2 : Tok)
    (hi : invar tk) (h : nextTokenPub tk = some (t, e, tk2)) : invar tk2 := by
  rw [nextTokenPub] at h
  by_cases hb : startsBinary tk.aaToken = true
  · rw [if_pos hb] at h
    simp only [Option.some.injEq, Prod.mk.injEq] at h
    obtain ⟨-, -, h3⟩ := h
    subst h3
    exact ⟨hi.2.1, le_rfl, hi.2.2.2, fun e2 he => by cases he⟩
  · rw [if_neg hb] at h
    rcases h3 : nextToken tk.data tk.aaToken tk.pos with _ | ⟨t2, e2, pos2⟩
    · simp only [h3] at h
      exact Option.noConfusion h
    · simp only [h3, Option.some.injEq, Prod.mk.injEq] at h
      obtain ⟨-, -, h4⟩ := h
      subst h4
      have f := nextToken_facts tk.data tk.aaToken tk.pos t2 e2 pos2 h3
      exact ⟨hi.2.1, f.1, hi.2.2.2, f.2⟩

theorem reach_invar (tk : Tok) (h : Reach tk) : invar tk := by
  induction h with
  | mk data tk hmk => exact (setPosition_facts _ 0 tk hmk).1
  | setPos tk p tk2 hr hsp ih => exact (setPosition_facts tk p tk2 hsp).1
  | next tk t e tk2 hr hstep ih => exact nextTokenPub_facts tk t e tk2 ih hstep
  | skip tk n out tk2 hr hstep ih =>
    rw [skipBytes] at hstep
    by_cases hc : tk.currentPos ≤ min (tk.currentPos + n) tk.data.length
    · rw [if_pos hc] at hstep
      rcases hsp : setPosition tk (min (tk.currentPos + n) tk.data.length) with _ | tk3
      · simp only [hsp] at hstep
        exact Option.noConfusion hstep
      · simp only [hsp, Option.some.injEq, Prod.mk.injEq] at hstep
        obtain ⟨-, h4⟩ := hstep
        subst h4
        exact (setPosition_facts tk _ tk3 hsp).1
    · rw [if_neg hc] at hstep
      cases hstep

/-- C1 (amended): when NextToken promotes a binary-introducing Other
token (value stream or ID) into the +1 slot, the +2 slot is forced to
the EOF token with nil error and no scan is performed (the buffer
position is unchanged).  The short-circuit lives only in NextToken;
SetPosition priming has no such check. -/
theorem C1_amended (tk : Tok) (t : Token) (e : Option Err) (tk2 : Tok)
    (hb : startsBinary tk.aaToken = true)
    (h : nextTokenPub tk = some (t, e, tk2)) :
    tk2.aToken = tk.aaToken ∧ tk2.aaToken = ⟨Kind.eof, []⟩ ∧ tk2.aaError = none ∧
      tk2.pos = tk.pos := by
  rw [nextTokenPub, if_pos hb] at h
  simp only [Option.some.injEq, Prod.mk.injEq] at h
  obtain ⟨-, -, h3⟩ := h
  subst h3
  exact ⟨rfl, rfl, rfl, rfl⟩

/-- C3 (amended): after every public operation the positions satisfy
currentPos ≤ nextPos ≤ pos; the further bound pos ≤ len(data) of the
original claim fails (see the counterexample: a CharString whose
declared length exceeds the remaining bytes advances pos past the
buffer length). -/
theorem C3_amended (tk : Tok) (h : Reach tk) :
    tk.currentPos ≤ tk.nextPos ∧ tk.nextPos ≤ tk.pos := by
  have hi := reach_invar tk h
  exact ⟨hi.1, hi.2.1⟩

/-- C4 (amended): whenever a cached lookahead error is non-nil, the
accompanying token is the Go zero token — whose Kind is the unnamed
zero kind, which is distinct from EOF (EOF is 1 in the const block) —
with an empty Value. -/
theorem C4_amended (tk : Tok) (h : Reach tk) :
    (∀ e, tk.aError = some e → tk.aToken = zeroToken) ∧
      (∀ e, tk.aaError = some e → tk.aaToken = zeroToken) ∧
      zeroToken.kind ≠ Kind.eof := by
  have hi := reach_invar tk h
  exact ⟨hi.2.2.1, hi.2.2.2, by decide⟩

/-- C7 (amended): if the byte at CurrentPosition is CR and the byte
after it is not LF, StreamPosition returns CurrentPosition + 1: the
lone CR is consumed, nothing further. -/
theorem C7_amended (tk : Tok) (h1 : tk.currentPos < tk.data.length)
    (h2 : tk.data.getD tk.currentPos 0 = 13)
    (h3 : tk.currentPos + 1 < tk.data.length →
      tk.data.getD (tk.currentPos + 1) 0 ≠ 10) :
    streamPosition tk = tk.currentPos + 1 := by
  rw [streamPosition, if_pos ⟨h1, h2⟩, streamPosInner]
  exact if_neg (fun hc => h3 hc.1 hc.2)

/-- C8: inside a parenthesized literal string, an unescaped CR LF pair
and an unescaped bare CR each contribute exactly one LF byte to the
accumulated value: the loop continues past the CR (and the optional LF)
with exactly [10] appended. -/
theorem C8_cr_normalized (data : List Nat) (nest : Int) (buf : List Nat) (pos : Nat)
    (h : pos < data.length) (hcr : data.getD pos 0 = 13) (hn : nest ≠ -1)
    (h2 : pos + 1 < data.length) :
    stringLoop data nest buf pos =
      if data.getD (pos + 1) 0 = 10 then stringLoop data nest (buf ++ [10]) (pos + 2)
      else stringLoop data nest (buf ++ [10]) (pos + 1) := by
  rw [stringLoop, dif_pos h, hcr]
  rw [if_neg (by decide : ¬((13 : Nat) = 40)), if_neg (by decide : ¬((13 : Nat) = 41)),
    if_neg (by decide : ¬((13 : Nat) = 92)), if_pos (rfl : (13 : Nat) = 13), dif_pos h2]
  by_cases hlf : data.getD (pos + 1) 0 = 10
  · rw [if_pos hlf, if_pos hlf, if_neg hn]
  · rw [if_neg hlf, if_neg hlf, if_neg hn]

/-- C10: whenever the cached +1 lookahead slot holds a non-nil error,
IsEOF returns false, because the zero token stored alongside an error
does not have Kind EOF. -/
theorem C10_isEOF_false_on_error (tk : Tok) (h : Reach tk) (he : tk.aError ≠ none) :
    isEOF tk = false := by
  have hi := reach_invar tk h
  rcases hoe : tk.aError with _ | e
  · exact absurd hoe he
  · have hz := hi.2.2.1 e hoe
    rw [isEOF, hz]
    rfl

/-- Value of decimal digit bytes interpreted in base `b`. -/
def decBaseVal (b : Nat) (ds : List Nat) : Nat :=
  ds.foldl (fun a c => a * b + (c - 48)) 0

theorem natReprAux_digits (f : Nat) : ∀ (n : Nat), ∀ c ∈ natReprAux f n,
    48 ≤ c ∧ c ≤ 57 := by
  induction f with
  | zero =>
    intro n c hc
    simp [natReprAux] at hc
  | succ f ih =>
    intro n c hc
    match n with
    | 0 => simp [natReprAux] at hc
    | m + 1 =>
      rw [natReprAux] at hc
      rcases List.mem_append.mp hc with hm | hm
      · exact ih _ c hm
      · simp at hm
        have : (m + 1) % 10 < 10 := Nat.mod_lt _ (by omega)
        omega

theorem natRepr_digits (n : Nat) : ∀ c ∈ natRepr n, 48 ≤ c ∧ c ≤ 57 := by
  rw [natRepr]
  by_cases h : n = 0
  · rw [if_pos h]
    intro c hc
    simp at hc
    omega
  · rw [if_neg h]
    exact natReprAux_digits n n

theorem natRepr_ne_nil (n : Nat) : natRepr n ≠ [] := by
  rw [natRepr]
  by_cases h : n = 0
  · rw [if_pos h]
    simp
  · rw [if_neg h]
    match n, h with
    | m + 1, _ =>
      rw [natReprAux]
      simp

theorem digitsVal_append (l : List Nat) (d : Nat) :
    digitsVal (l ++ [d]) = digitsVal l * 10 + (d - 48) := by
  rw [digitsVal, digitsVal, List.foldl_append]
  rfl

theorem natReprAux_val (f : Nat) : ∀ n, n ≤ f → digitsVal (natReprAux f n) = n := by
  induction f with
  | zero =>
    intro n hn
    have : n = 0 := by omega
    subst this
    rfl
  | succ f ih =>
    intro n hn
    match n with
    | 0 => rfl
    | m + 1 =>
      rw [natReprAux, digitsVal_append]
      have hdiv : (m + 1) / 10 ≤ f := by
        have := Nat.div_lt_self (by omega : 0 < m + 1) (by omega : 1 < 10)
        omega
      rw [ih _ hdiv]
      have hmod : (m + 1) % 10 + 48 - 48 = (m + 1) % 10 := by omega
      rw [hmod]
      have := Nat.div_add_mod (m + 1) 10
      omega

theorem digitsVal_natRepr (n : Nat) : digitsVal (natRepr n) = n := by
  rw [natRepr]
  by_cases h : n = 0
  · rw [if_pos h, h]
    rfl
  · rw [if_neg h]
    exact natReprAux_val n n le_rfl

theorem satInt64_small (v : Int) (h0 : 0 ≤ v) (h : v < 2 ^ 63) : satInt64 v = v := by
  rw [satInt64, if_neg (by omega), if_neg (by omega)]

theorem decDigits_true (s : List Nat) (hne : s ≠ [])
    (hd : ∀ c ∈ s, 48 ≤ c ∧ c ≤ 57) : decDigits s = true := by
  rw [decDigits]
  simp only [Bool.and_eq_true, List.all_eq_true]
  constructor
  · simp [List.isEmpty_iff, hne]
  · intro c hc
    have := hd c hc
    simp [isDigit]
    omega

theorem goAtoi_natRepr (b : Nat) (hb : b ≤ 36) : goAtoi (natRepr b) = (b : Int) := by
  rcases hnr : natRepr b with _ | ⟨c, t⟩
  · exact absurd hnr (natRepr_ne_nil b)
  · have hdig := natRepr_digits b
    rw [hnr] at hdig
    have hc := hdig c (by simp)
    rw [goAtoi]
    rw [if_neg (by omega), if_neg (by omega)]
    rw [if_pos (decDigits_true (c :: t) (by simp) hdig)]
    have hv : digitsVal (c :: t) = b := by rw [← hnr]; exact digitsVal_natRepr b
    rw [hv]
    exact satInt64_small b (by omega) (by norm_num; omega)

theorem baseDigVal_digit (c : Nat) (h : 48 ≤ c ∧ c ≤ 57) : baseDigVal c = c - 48 := by
  rw [baseDigVal, if_pos h]

theorem baseVal_foldl_dec (b : Nat) : ∀ (ds : List Nat),
    (∀ d ∈ ds, 48 ≤ d ∧ d ≤ 57) → ∀ a : Nat,
    ds.foldl (fun a c => a * b + baseDigVal c) a =
      ds.foldl (fun a c => a * b + (c - 48)) a := by
  intro ds
  induction ds with
  | nil => intro _ a; rfl
  | cons d t ih =>
    intro hd a
    have hdd := hd d (by simp)
    have ht : ∀ x ∈ t, 48 ≤ x ∧ x ≤ 57 := fun x hx => hd x (by simp [hx])
    simp only [List.foldl_cons, baseDigVal_digit d hdd]
    exact ih ht (a * b + (d - 48))

theorem baseVal_eq_dec (b : Nat) (ds : List Nat)
    (hd : ∀ d ∈ ds, 48 ≤ d ∧ d ≤ 57) : baseVal b ds = decBaseVal b ds :=
  baseVal_foldl_dec b ds hd 0

theorem goParseInt_dec (b : Nat) (ds : List Nat) (hb2 : 2 ≤ b) (hb36 : b ≤ 36)
    (hne : ds ≠ []) (hd : ∀ d ∈ ds, 48 ≤ d ∧ d ≤ 57 ∧ d - 48 < b)
    (hsz : decBaseVal b ds < 2 ^ 63) :
    goParseInt ds (b : Int) = (decBaseVal b ds : Int) := by
  rcases ds with _ | ⟨c, t⟩
  · exact absurd rfl hne
  · have hdd : ∀ d ∈ c :: t, 48 ≤ d ∧ d ≤ 57 := fun d hm => ⟨(hd d hm).1, (hd d hm).2.1⟩
    have hc := hd c (by simp)
    rw [goParseInt, if_neg (by omega), if_pos (by constructor <;> [exact_mod_cast hb2; exact_mod_cast hb36])]
    rw [if_neg (by omega), if_neg (by omega)]
    rw [if_pos ?hcond]
    case hcond =>
      simp only [Bool.and_eq_true, List.all_eq_true]
      refine ⟨by simp, ?_⟩
      intro d hm
      have hdm := hd d hm
      have : baseDigVal d = d - 48 := baseDigVal_digit d ⟨hdm.1, hdm.2.1⟩
      simp [this, Int.toNat_natCast]
      omega
    rw [Int.toNat_natCast, baseVal_eq_dec b (c :: t) hdd]
    exact satInt64_small _ (by exact_mod_cast Nat.zero_le _) (by exact_mod_cast hsz)

theorem intRepr_natCast (n : Nat) : intRepr (n : Int) = natRepr n := by
  rw [intRepr, if_neg (by omega)]
  simp [Int.toNat_natCast]

theorem drop_eq_cons {data : List Nat} : ∀ {pos x t}, data.drop pos = x :: t →
    pos < data.length ∧ data.getD pos 0 = x ∧ data.drop (pos + 1) = t := by
  induction data with
  | nil => intro pos x t h; simp at h
  | cons a rest ih =>
    intro pos x t h
    match pos with
    | 0 =>
      simp at h
      obtain ⟨h1, h2⟩ := h
      subst h1; subst h2
      refine ⟨by simp, rfl, by simp⟩
    | p + 1 =>
      simp only [List.drop_succ_cons] at h
      obtain ⟨h1, h2, h3⟩ := ih h
      exact ⟨by simpa using Nat.succ_lt_succ h1, h2, h3⟩

theorem drop_nil_ge {data : List Nat} : ∀ {pos}, data.drop pos = [] →
    data.length ≤ pos := by
  induction data with
  | nil => intro pos _; simp
  | cons a rest ih =>
    intro pos h
    match pos with
    | 0 => simp at h
    | p + 1 =>
      simp only [List.drop_succ_cons] at h
      simpa using Nat.succ_le_succ (ih h)

theorem digitLoop_run_stop (data : List Nat) : ∀ (ds : List Nat) (c pos : Nat)
    (sb : List Nat) (r : Nat) (rest : List Nat),
    data.drop pos = ds ++ r :: rest → isDigit c = true →
    (∀ d ∈ ds, isDigit d = true) → isDigit r = false →
    digitLoop data c true pos sb = (r, true, pos + ds.length + 1, sb ++ c :: ds) := by
  intro ds
  induction ds with
  | nil =>
    intro c pos sb r rest hdrop hc _ hr
    obtain ⟨h1, h2, _⟩ := drop_eq_cons hdrop
    rw [digitLoop, if_pos hc, dif_pos h1, h2, digitLoop, if_neg (by simp [hr])]
    simp
  | cons d t ih =>
    intro c pos sb r rest hdrop hc hds hr
    obtain ⟨h1, h2, h3⟩ := drop_eq_cons hdrop
    have hdd : isDigit d = true := hds d (by simp)
    have hts : ∀ x ∈ t, isDigit x = true := fun x hx => hds x (by simp [hx])
    rw [digitLoop, if_pos hc, dif_pos h1, h2, ih d (pos + 1) (sb ++ [c]) r rest h3 hdd hts hr]
    simp only [Prod.mk.injEq, List.length_cons]
    refine ⟨trivial, trivial, by omega, by simp⟩

theorem digitLoop_run_eof (data : List Nat) : ∀ (ds : List Nat) (c pos : Nat)
    (sb : List Nat),
    data.drop pos = ds → isDigit c = true → (∀ d ∈ ds, isDigit d = true) →
    digitLoop data c true pos sb = (0, false, pos + ds.length, sb ++ c :: ds) := by
  intro ds
  induction ds with
  | nil =>
    intro c pos sb hdrop hc _
    have h1 := drop_nil_ge hdrop
    rw [digitLoop, if_pos hc, dif_neg (by omega)]
    simp
  | cons d t ih =>
    intro c pos sb hdrop hc hds
    obtain ⟨h1, h2, h3⟩ := drop_eq_cons hdrop
    have hdd : isDigit d = true := hds d (by simp)
    have hts : ∀ x ∈ t, isDigit x = true := fun x hx => hds x (by simp [hx])
    rw [digitLoop, if_pos hc, dif_pos h1, h2, ih d (pos + 1) (sb ++ [c]) h3 hdd hts]
    simp only [Prod.mk.injEq, List.length_cons]
    refine ⟨trivial, trivial, by omega, by simp⟩

/-- C5 (amended): a radix literal `B#D` whose radix part is a decimal
numeral for a base between 2 and 36 and whose digit part consists of
decimal digits valid in that base parses as an Integer token carrying the
decimal representation of the digits' value in that base (stated for
in-range values; the claim's `16#FFFE` example is refuted separately
because `F` is not read into the digit run at all). -/
theorem C5_amended (b : Nat) (ds : List Nat) (hb2 : 2 ≤ b) (hb36 : b ≤ 36)
    (hne : ds ≠ []) (hd : ∀ d ∈ ds, 48 ≤ d ∧ d ≤ 57 ∧ d - 48 < b)
    (hsz : decBaseVal b ds < 2 ^ 63) :
    readNumber (natRepr b ++ 35 :: ds) 0 =
      some (⟨Kind.integer, natRepr (decBaseVal b ds)⟩,
        (natRepr b).length + 1 + ds.length) := by
  rcases hds : ds with _ | ⟨dh, dt⟩
  · exact absurd hds hne
  subst hds
  rcases hnr : natRepr b with _ | ⟨h0, t0⟩
  · exact absurd hnr (natRepr_ne_nil b)
  have hnrd : ∀ c ∈ h0 :: t0, 48 ≤ c ∧ c ≤ 57 := by
    rw [← hnr]; exact natRepr_digits b
  have hh0 := hnrd h0 (by simp)
  have hdh := hd dh (by simp)
  have hdtd : ∀ x ∈ dt, isDigit x = true := by
    intro x hx
    have := hd x (by simp [hx])
    simp [isDigit]
    omega
  have ht0d : ∀ x ∈ t0, isDigit x = true := by
    intro x hx
    have := hnrd x (by simp [hx])
    simp [isDigit]
    omega
  have hh0d : isDigit h0 = true := by simp [isDigit]; omega
  have hdhd : isDigit dh = true := by simp [isDigit]; omega
  have e0 : readB ((h0 :: t0) ++ 35 :: dh :: dt) 0 = (h0, true, 1) := by
    rw [readB, if_pos (by simp)]
    simp
  have hdrop1 : ((h0 :: t0) ++ 35 :: dh :: dt).drop 1 = t0 ++ 35 :: dh :: dt := by
    simp
  have edl : digitLoop ((h0 :: t0) ++ 35 :: dh :: dt) h0 true 1 [] =
      (35, true, 1 + t0.length + 1, [] ++ h0 :: t0) :=
    digitLoop_run_stop _ t0 h0 1 [] 35 (dh :: dt) hdrop1 hh0d ht0d (by decide)
  have hsplit : (h0 :: t0) ++ 35 :: dh :: dt = ((h0 :: t0) ++ [35]) ++ dh :: dt := by
    simp
  have hlen35 : 1 + t0.length + 1 = ((h0 :: t0) ++ [35]).length := by
    simp only [List.length_append, List.length_cons, List.length_nil]
    omega
  have hdrop2 : ((h0 :: t0) ++ 35 :: dh :: dt).drop (1 + t0.length + 1) = dh :: dt := by
    rw [hlen35, hsplit, List.drop_left]
  obtain ⟨hlt2, hgd2, hdrop3⟩ := drop_eq_cons hdrop2
  have e3 : readB ((h0 :: t0) ++ 35 :: dh :: dt) (1 + t0.length + 1) =
      (dh, true, 1 + t0.length + 1 + 1) := by
    rw [readB, if_pos hlt2, hgd2]
  have edl2 : digitLoop ((h0 :: t0) ++ 35 :: dh :: dt) dh true (1 + t0.length + 1 + 1) [] =
      (0, false, 1 + t0.length + 1 + 1 + dt.length, [] ++ dh :: dt) :=
    digitLoop_run_eof _ dt dh _ [] hdrop3 hdhd hdtd
  have hsgn : ¬(h0 = 43 ∨ h0 = 45) := by
    rintro (h | h) <;> omega
  simp only [readNumber, e0, if_neg hsgn]
  simp only [edl]
  rw [if_neg (by decide : ¬(35 : Nat) = 46)]
  rw [if_pos (trivial : True)]
  simp only [e3]
  rw [if_pos hdhd]
  simp only [edl2, List.nil_append]
  rw [if_neg (by decide : ¬(false = true))]
  rw [if_pos (by simp : ¬(h0 :: t0 : List Nat) = [])]
  rw [← hnr, goAtoi_natRepr b hb36,
    goParseInt_dec b (dh :: dt) hb2 hb36 (by simp) hd hsz, intRepr_natCast]
  simp only [Option.some.injEq, Prod.mk.injEq]
  refine ⟨trivial, ?_⟩
  rw [hnr]
  simp only [List.length_cons]
  omega

/-- C6 (amended): readNumber declines (returns `none`, i.e. Go returns
`false` and restores the marked position) when the byte after the
optional sign is neither a decimal digit nor `.` nor `#`.  The claim's
unconditional digit requirement is refuted separately: `.5` is accepted. -/
theorem C6_amended (data : List Nat) (pos : Nat) (c1 : Nat)
    (hc1 : c1 = if (readB data pos).1 = 43 ∨ (readB data pos).1 = 45
      then (readB data (readB data pos).2.2).1 else (readB data pos).1)
    (hnd : isDigit c1 = false) (h46 : c1 ≠ 46) (h35 : c1 ≠ 35) :
    readNumber data pos = none := by
  simp only [readNumber]
  rw [← hc1]
  generalize (readB data pos).2.1 = okk
  generalize (if (readB data pos).1 = 43 ∨ (readB data pos).1 = 45
    then (readB data (readB data pos).2.2).2.2 else (readB data pos).2.2) = pp
  generalize (if (readB data pos).1 = 43 ∨ (readB data pos).1 = 45
    then [(readB data pos).1] else ([] : List Nat)) = sbb
  have hdl : digitLoop data c1 okk pp sbb = (c1, okk, pp, sbb) := by
    rw [digitLoop, if_neg (by simp [hnd])]
  simp only [hdl]
  rw [if_neg h46, if_neg h35, if_pos (Or.inr hnd)]

/-- C2 (amended): whenever the core scan at position `pos` does not hit
the CharString trigger (the RD / -| operator path), its result is
independent of the previously emitted token, and SetPosition(pos)
followed by NextToken returns exactly that result.  (The trigger path
genuinely depends on the previous token, refuting the unrestricted
claim.) -/
theorem C2_amended (data : List Nat) (pos : Nat) (t : Token) (e : Option Err)
    (p2 : Nat) (hdone : nextTokenCore data pos = ScanOut.done t e p2) :
    (∀ prev, nextToken data prev pos = some (t, e, p2)) ∧
      (∀ tk0 tk1 t2 e2 tk2, tk0.data = data → setPosition tk0 pos = some tk1 →
        nextTokenPub tk1 = some (t2, e2, tk2) → t2 = t ∧ e2 = e) := by
  have hfirst : ∀ prev, nextToken data prev pos = some (t, e, p2) := by
    intro prev
    rw [nextToken]
    simp only [hdone]
  refine ⟨hfirst, ?_⟩
  intro tk0 tk1 t2 e2 tk2 hdata hsp hnp
  rw [setPosition, hdata] at hsp
  simp only [hfirst zeroToken] at hsp
  rcases h2 : nextToken data t p2 with _ | ⟨⟨tb, eb, pb⟩⟩
  · simp only [h2] at hsp
    exact Option.noConfusion hsp
  · simp only [h2, Option.some.injEq] at hsp
    subst hsp
    rw [nextTokenPub] at hnp
    split at hnp
    · simp only [Option.some.injEq, Prod.mk.injEq] at hnp
      obtain ⟨a, b, -⟩ := hnp
      exact ⟨a.symm, b.symm⟩
    · split at hnp
      · exact Option.noConfusion hnp
      · simp only [Option.some.injEq, Prod.mk.injEq] at hnp
        obtain ⟨a, b, -⟩ := hnp
        exact ⟨a.symm, b.symm⟩

/-- C1 (counterexample): priming via NewTokenizer on `stream\nxyz` puts
Other "stream" in the +1 slot but scans past it: PeekPeekToken reports an
Other token (`xyz`), not EOF — SetPosition's priming lacks the
startsBinary short-circuit. -/
theorem C1_counterexample :
    ((mkTokenizer [115, 116, 114, 101, 97, 109, 10, 120, 121, 122]).map
        (fun tk => ((peekToken tk).1, (peekPeekToken tk).1.kind)) =
      some (⟨Kind.other, [115, 116, 114, 101, 97, 109]⟩, Kind.other)) ∧
      Kind.other ≠ Kind.eof := by
  refine ⟨?_, by decide⟩
  simp [mkTokenizer, setPosition, nextToken, nextTokenCore, scanStart, skipWsCh,
    skipComment, digitLoop, wordLoop, nameLoop, hexLoop, stringLoop, readNumber,
    readB, readCharString, tokenInt, decDigits, digitsVal, satInt64, goAtoi,
    goParseInt, goParseInt0Body, baseDigVal, baseVal, natReprAux, natRepr, intRepr,
    isWhite, isEOLb, isDelim, isDigit, isHexChar, zeroToken, startsBinary,
    nextTokenPub, peekToken, peekPeekToken, ScanOut.outPos]

/-- C1 (witness for the amended statement): on `x stream`, once the Other
"stream" token has been promoted into the +1 slot by NextToken, the +2
slot is (EOF, nil) and no bytes were scanned past the operator. -/
theorem C1_witness :
    (⟨[120, 32, 115, 116, 114, 101, 97, 109], ⟨Kind.other, [115, 116, 114, 101, 97, 109]⟩,
        none, ⟨Kind.eof, []⟩, none, 8, 1, 8⟩ : Tok).aToken =
      (⟨[120, 32, 115, 116, 114, 101, 97, 109], ⟨Kind.other, [120]⟩, none,
        ⟨Kind.other, [115, 116, 114, 101, 97, 109]⟩, none, 8, 0, 1⟩ : Tok).aaToken ∧
    (⟨[120, 32, 115, 116, 114, 101, 97, 109], ⟨Kind.other, [115, 116, 114, 101, 97, 109]⟩,
        none, ⟨Kind.eof, []⟩, none, 8, 1, 8⟩ : Tok).aaToken = ⟨Kind.eof, []⟩ ∧
    (⟨[120, 32, 115, 116, 114, 101, 97, 109], ⟨Kind.other, [115, 116, 114, 101, 97, 109]⟩,
        none, ⟨Kind.eof, []⟩, none, 8, 1, 8⟩ : Tok).aaError = none ∧
    (⟨[120, 32, 115, 116, 114, 101, 97, 109], ⟨Kind.other, [115, 116, 114, 101, 97, 109]⟩,
        none, ⟨Kind.eof, []⟩, none, 8, 1, 8⟩ : Tok).pos =
      (⟨[120, 32, 115, 116, 114, 101, 97, 109], ⟨Kind.other, [120]⟩, none,
        ⟨Kind.other, [115, 116, 114, 101, 97, 109]⟩, none, 8, 0, 1⟩ : Tok).pos :=
  C1_amended _ ⟨Kind.other, [120]⟩ none _ (by decide) (by decide)

/-- C2 (counterexample): on `3 RD ab` the forward scan's NextToken at
token boundary 1 yields a CharString token, while SetPosition(1) followed
by NextToken yields the zero token with a charString-leader error: the
scan at a boundary does depend on the previously emitted token. -/
theorem C2_counterexample :
    ((mkTokenizer [51, 32, 82, 68, 32, 97, 98]).bind (fun tk0 =>
        (nextTokenPub tk0).bind (fun r1 =>
          (nextTokenPub r1.2.2).map (fun r2 => (r1.2.2.currentPos, r2.1.kind, r2.2.1)))) =
      some (1, Kind.charString, none)) ∧
    ((mkTokenizer [51, 32, 82, 68, 32, 97, 98]).bind (fun tk0 =>
        (setPosition tk0 1).bind (fun tk1 =>
          (nextTokenPub tk1).map (fun r => (r.1.kind, r.2.1)))) =
      some (Kind.invalid, some Err.charStringLeaderMissing)) ∧
    Kind.charString ≠ Kind.invalid := by
  have h0 : mkTokenizer [51, 32, 82, 68, 32, 97, 98] =
      some ⟨[51, 32, 82, 68, 32, 97, 98], ⟨Kind.integer, [51]⟩, none,
        ⟨Kind.charString, [97, 98]⟩, none, 8, 0, 1⟩ := by
    simp [mkTokenizer, setPosition, nextToken, nextTokenCore, scanStart, skipWsCh,
      skipComment, digitLoop, wordLoop, readNumber, readB, readCharString, tokenInt,
      decDigits, digitsVal, satInt64, isWhite, isEOLb, isDelim, isDigit, zeroToken,
      ScanOut.outPos]
  have h1 : nextTokenPub ⟨[51, 32, 82, 68, 32, 97, 98], ⟨Kind.integer, [51]⟩, none,
      ⟨Kind.charString, [97, 98]⟩, none, 8, 0, 1⟩ =
      some (⟨Kind.integer, [51]⟩, none, ⟨[51, 32, 82, 68, 32, 97, 98],
        ⟨Kind.charString, [97, 98]⟩, none, ⟨Kind.eof, []⟩, none, 8, 1, 8⟩) := by
    simp [nextTokenPub, nextToken, nextTokenCore, scanStart, skipWsCh, readB,
      startsBinary, zeroToken, ScanOut.outPos]
  have h2 : nextTokenPub ⟨[51, 32, 82, 68, 32, 97, 98], ⟨Kind.charString, [97, 98]⟩,
      none, ⟨Kind.eof, []⟩, none, 8, 1, 8⟩ =
      some (⟨Kind.charString, [97, 98]⟩, none, ⟨[51, 32, 82, 68, 32, 97, 98],
        ⟨Kind.eof, []⟩, none, ⟨Kind.eof, []⟩, none, 8, 8, 8⟩) := by
    simp [nextTokenPub, nextToken, nextTokenCore, scanStart, skipWsCh, readB,
      startsBinary, zeroToken, ScanOut.outPos]
  have h3 : setPosition ⟨[51, 32, 82, 68, 32, 97, 98], ⟨Kind.integer, [51]⟩, none,
      ⟨Kind.charString, [97, 98]⟩, none, 8, 0, 1⟩ 1 =
      some ⟨[51, 32, 82, 68, 32, 97, 98], ⟨Kind.invalid, []⟩,
        some Err.charStringLeaderMissing, ⟨Kind.other, [97, 98]⟩, none, 7, 1, 4⟩ := by
    simp [setPosition, nextToken, nextTokenCore, scanStart, skipWsCh, skipComment,
      digitLoop, wordLoop, readNumber, readB, readCharString, tokenInt, isWhite,
      isEOLb, isDelim, isDigit, zeroToken, ScanOut.outPos]
  have h4 : nextTokenPub ⟨[51, 32, 82, 68, 32, 97, 98], ⟨Kind.invalid, []⟩,
      some Err.charStringLeaderMissing, ⟨Kind.other, [97, 98]⟩, none, 7, 1, 4⟩ =
      some (⟨Kind.invalid, []⟩, some Err.charStringLeaderMissing,
        ⟨[51, 32, 82, 68, 32, 97, 98], ⟨Kind.other, [97, 98]⟩, none, ⟨Kind.eof, []⟩,
          none, 7, 4, 7⟩) := by
    simp [nextTokenPub, nextToken, nextTokenCore, scanStart, skipWsCh, readB,
      startsBinary, zeroToken, ScanOut.outPos]
  refine ⟨?_, ?_, by decide⟩
  · rw [h0]
    simp only [Option.bind, h1, h2, Option.map]
  · rw [h0]
    simp only [Option.bind, h3, h4, Option.map]

/-- C2 (witness for the amended statement): on `42` the core scan at 0
finishes without the trigger, so NextToken at 0 is the Integer token `42`
for any previous token. -/
theorem C2_witness :
    nextToken [52, 50] ⟨Kind.other, [120]⟩ 0 = some (⟨Kind.integer, [52, 50]⟩, none, 2) :=
  (C2_amended [52, 50] 0 ⟨Kind.integer, [52, 50]⟩ none 2
    (by simp [nextTokenCore, scanStart, skipWsCh, skipComment, digitLoop, wordLoop,
      readNumber, readB, isWhite, isEOLb, isDelim, isDigit, zeroToken,
      ScanOut.outPos])).1 ⟨Kind.other, [120]⟩

/-- C3 (counterexample): on `2 RD a` construction already leaves
pos = 7 while the buffer holds 6 bytes: scanning a CharString whose
declared length exceeds the remaining bytes pushes pos past len(data). -/
theorem C3_counterexample :
    (mkTokenizer [50, 32, 82, 68, 32, 97]).map (fun tk => (tk.pos, tk.data.length)) =
      some (7, 6) ∧ ¬((7 : Nat) ≤ 6) := by
  refine ⟨?_, by decide⟩
  simp [mkTokenizer, setPosition, nextToken, nextTokenCore, scanStart, skipWsCh,
    skipComment, digitLoop, wordLoop, nameLoop, hexLoop, stringLoop, readNumber,
    readB, readCharString, tokenInt, decDigits, digitsVal, satInt64, goAtoi,
    goParseInt, goParseInt0Body, baseDigVal, baseVal, natReprAux, natRepr, intRepr,
    isWhite, isEOLb, isDelim, isDigit, isHexChar, zeroToken, startsBinary,
    nextTokenPub, ScanOut.outPos]

/-- C3 (witness for the amended statement): the freshly constructed
tokenizer on the empty input satisfies currentPos ≤ nextPos ≤ pos. -/
theorem C3_witness :
    (⟨[], ⟨Kind.eof, []⟩, none, ⟨Kind.eof, []⟩, none, 0, 0, 0⟩ : Tok).currentPos ≤
        (⟨[], ⟨Kind.eof, []⟩, none, ⟨Kind.eof, []⟩, none, 0, 0, 0⟩ : Tok).nextPos ∧
      (⟨[], ⟨Kind.eof, []⟩, none, ⟨Kind.eof, []⟩, none, 0, 0, 0⟩ : Tok).nextPos ≤
        (⟨[], ⟨Kind.eof, []⟩, none, ⟨Kind.eof, []⟩, none, 0, 0, 0⟩ : Tok).pos :=
  C3_amended _ (Reach.mk [] _ (by
    simp [mkTokenizer, setPosition, nextToken, nextTokenCore, scanStart, skipWsCh,
      readB, zeroToken, ScanOut.outPos]))

/-- C4 (counterexample): a lone `>` yields a dictCloseExpected error whose
accompanying cached token has the zero Kind, which is not EOF. -/
theorem C4_counterexample :
    (mkTokenizer [62]).map (fun tk => (tk.aError, tk.aToken.kind)) =
      some (some Err.dictCloseExpected, Kind.invalid) ∧ Kind.invalid ≠ Kind.eof := by
  refine ⟨?_, by decide⟩
  simp [mkTokenizer, setPosition, nextToken, nextTokenCore, scanStart, skipWsCh,
    skipComment, digitLoop, wordLoop, nameLoop, hexLoop, stringLoop, readNumber,
    readB, readCharString, tokenInt, isWhite, isEOLb, isDelim, isDigit, isHexChar,
    zeroToken, startsBinary, nextTokenPub, ScanOut.outPos]

/-- C4 (witness for the amended statement): on the reachable errored state
produced by input `>`, the token cached beside the error is the zero token,
whose Kind differs from EOF. -/
theorem C4_witness :
    (⟨[62], ⟨Kind.invalid, []⟩, some Err.dictCloseExpected, ⟨Kind.eof, []⟩, none, 1, 0, 1⟩
        : Tok).aToken = zeroToken ∧ zeroToken.kind ≠ Kind.eof :=
  have h := C4_amended
    ⟨[62], ⟨Kind.invalid, []⟩, some Err.dictCloseExpected, ⟨Kind.eof, []⟩, none, 1, 0, 1⟩
    (Reach.mk [62] _ (by
      simp [mkTokenizer, setPosition, nextToken, nextTokenCore, scanStart, skipWsCh,
        skipComment, digitLoop, wordLoop, nameLoop, hexLoop, stringLoop, readNumber,
        readB, readCharString, tokenInt, isWhite, isEOLb, isDelim, isDigit, isHexChar,
        zeroToken, startsBinary, nextTokenPub, ScanOut.outPos]))
  ⟨h.1 Err.dictCloseExpected rfl, h.2.2⟩

/-- C5 (counterexample): `16#FFFE` is not accepted by the number scanner
at all — the digit run after `#` admits only decimal digit bytes, so the
scan declines at `F` and the bytes become an Other token. -/
theorem C5_counterexample :
    readNumber [49, 54, 35, 70, 70, 70, 69] 0 = none ∧
    (mkTokenizer [49, 54, 35, 70, 70, 70, 69]).map (fun tk => tk.aToken) =
      some ⟨Kind.other, [49, 54, 35, 70, 70, 70, 69]⟩ := by
  constructor <;>
  simp [mkTokenizer, setPosition, nextToken, nextTokenCore, scanStart, skipWsCh,
    skipComment, digitLoop, wordLoop, nameLoop, hexLoop, stringLoop, readNumber,
    readB, readCharString, tokenInt, isWhite, isEOLb, isDelim, isDigit, isHexChar,
    zeroToken, startsBinary, nextTokenPub, ScanOut.outPos]

/-- C5 (witness for the amended statement): `16#99` is accepted and
yields the Integer token for 9*16+9 = 153. -/
theorem C5_witness :
    readNumber (natRepr 16 ++ 35 :: [57, 57]) 0 =
      some (⟨Kind.integer, natRepr (decBaseVal 16 [57, 57])⟩,
        (natRepr 16).length + 1 + [57, 57].length) :=
  C5_amended 16 [57, 57] (by decide) (by decide) (by decide) (by decide) (by decide)

/-- C6 (counterexample): `.5` has no digit before the dot yet readNumber
accepts it as a Float token — the digit requirement claimed for the dot
path does not exist in the code. -/
theorem C6_counterexample :
    readNumber [46, 53] 0 = some (⟨Kind.float, [46, 53]⟩, 2) ∧
      readNumber [46, 53] 0 ≠ none := by
  have h : readNumber [46, 53] 0 = some (⟨Kind.float, [46, 53]⟩, 2) := by
    simp [readNumber, readB, digitLoop, isDigit]
  exact ⟨h, by rw [h]; exact fun hc => Option.noConfusion hc⟩

/-- C6 (witness for the amended statement): on `x` (no sign, not a digit,
not a dot, not a hash) readNumber declines. -/
theorem C6_witness : readNumber [120] 0 = none :=
  C6_amended [120] 0 120 (by decide) (by decide) (by decide) (by decide)

/-- C7 (counterexample): on input CR `X`, the constructed tokenizer has
CurrentPosition 0 on the CR with no LF after it, and StreamPosition
returns 1, not CurrentPosition itself. -/
theorem C7_counterexample :
    (mkTokenizer [13, 88]).map (fun tk => (streamPosition tk, tk.currentPos)) =
      some (1, 0) ∧ (1 : Nat) ≠ 0 := by
  refine ⟨?_, by decide⟩
  simp [mkTokenizer, setPosition, nextToken, nextTokenCore, scanStart, skipWsCh,
    skipComment, digitLoop, wordLoop, nameLoop, hexLoop, stringLoop, readNumber,
    readB, readCharString, tokenInt, isWhite, isEOLb, isDelim, isDigit, isHexChar,
    zeroToken, startsBinary, nextTokenPub, streamPosition, streamPosInner,
    ScanOut.outPos]

/-- C7 (witness for the amended statement): a state pointing at a CR
followed by a non-LF byte: StreamPosition consumes exactly the CR. -/
theorem C7_witness :
    streamPosition ⟨[13, 88], ⟨Kind.invalid, []⟩, none, ⟨Kind.invalid, []⟩, none, 0, 0, 0⟩ =
      0 + 1 :=
  C7_amended ⟨[13, 88], ⟨Kind.invalid, []⟩, none, ⟨Kind.invalid, []⟩, none, 0, 0, 0⟩
    (by decide) (by decide) (by decide)

/-- C8 (witness): at a CR immediately followed by LF inside a string,
the loop continues past both bytes with exactly one LF appended. -/
theorem C8_witness :
    stringLoop [13, 10, 41] 0 [] 0 =
      if [13, 10, 41].getD (0 + 1) 0 = 10 then stringLoop [13, 10, 41] 0 ([] ++ [10]) (0 + 2)
      else stringLoop [13, 10, 41] 0 ([] ++ [10]) (0 + 1) :=
  C8_cr_normalized [13, 10, 41] 0 [] 0 (by decide) (by decide) (by decide) (by decide)

/-- C9: NextToken is not total — on `x -3 RD ab` the tokenizer constructs
fine, but the first NextToken reaches the CharString trigger with the
negative length -3, and the Go slice expression data[pos:maxL] with
maxL < pos panics (modelled as `none`). -/
theorem C9_theorem :
    (mkTokenizer [120, 32, 45, 51, 32, 82, 68, 32, 97, 98]).isSome = true ∧
    (mkTokenizer [120, 32, 45, 51, 32, 82, 68, 32, 97, 98]).bind nextTokenPub = none := by
  have h : mkTokenizer [120, 32, 45, 51, 32, 82, 68, 32, 97, 98] =
      some ⟨[120, 32, 45, 51, 32, 82, 68, 32, 97, 98], ⟨Kind.other, [120]⟩, none,
        ⟨Kind.integer, [45, 51]⟩, none, 4, 0, 1⟩ := by
    simp [mkTokenizer, setPosition, nextToken, nextTokenCore, scanStart, skipWsCh,
      skipComment, digitLoop, wordLoop, nameLoop, hexLoop, stringLoop, readNumber,
      readB, readCharString, tokenInt, decDigits, digitsVal, satInt64, goAtoi,
      goParseInt, goParseInt0Body, baseDigVal, baseVal, natReprAux, natRepr, intRepr,
      isWhite, isEOLb, isDelim, isDigit, isHexChar, zeroToken, startsBinary,
      ScanOut.outPos]
  rw [h]
  refine ⟨rfl, ?_⟩
  simp [nextTokenPub, nextToken, nextTokenCore, scanStart, skipWsCh, skipComment,
    digitLoop, wordLoop, nameLoop, hexLoop, stringLoop, readNumber, readB,
    readCharString, tokenInt, decDigits, digitsVal, satInt64, isWhite, isEOLb,
    isDelim, isDigit, isHexChar, zeroToken, startsBinary, Option.bind, ScanOut.outPos]

/-- C10 (witness): on the reachable errored state produced by input `>`,
IsEOF is false while PeekToken's error is non-nil. -/
theorem C10_witness :
    isEOF ⟨[62], ⟨Kind.invalid, []⟩, some Err.dictCloseExpected, ⟨Kind.eof, []⟩, none, 1, 0, 1⟩ =
      false :=
  C10_isEOF_false_on_error
    ⟨[62], ⟨Kind.invalid, []⟩, some Err.dictCloseExpected, ⟨Kind.eof, []⟩, none, 1, 0, 1⟩
    (Reach.mk [62] _ (by
      simp [mkTokenizer, setPosition, nextToken, nextTokenCore, scanStart, skipWsCh,
        skipComment, digitLoop, wordLoop, nameLoop, hexLoop, stringLoop, readNumber,
        readB, readCharString, tokenInt, isWhite, isEOLb, isDelim, isDigit, isHexChar,
        zeroToken, startsBinary, nextTokenPub, ScanOut.outPos]))
    (by decide)
